import Mathlib

/-!
Verification of the HVPP-Configurator device-communication engine
(hvpp_programmer.py): CRC-16, Intel HEX codec, page transfer protocol,
segmentation, and the command dispatch, shallowly embedded in Lean.
Bytes are modelled as natural numbers below 256, byte strings as lists,
and serial traffic as explicit event traces.
-/

namespace HVPP

/-- CRC-16 inner round: shift left, conditionally XOR with polynomial 0x1021,
mask to 16 bits (one iteration of the inner for-loop of _calculate_crc16). -/
def crc16Round (crc : Nat) : Nat :=
  if crc &&& 0x8000 ≠ 0 then ((crc <<< 1) ^^^ 0x1021) &&& 0xFFFF
  else (crc <<< 1) &&& 0xFFFF

/-- Fold one input byte into the CRC accumulator (outer loop body of
_calculate_crc16): XOR the byte shifted into the high 8 bits, then 8 rounds. -/
def crc16Byte (crc b : Nat) : Nat :=
  crc16Round^[8] (crc ^^^ (b <<< 8))

/-- _calculate_crc16: CRC-16 (CCITT, poly 0x1021, init 0) over a byte list. -/
def crc16 (data : List Nat) : Nat :=
  data.foldl crc16Byte 0

/-- Little-endian decoding of a byte list (int.from_bytes(_, byteorder=little)). -/
def fromBytesLE (l : List Nat) : Nat :=
  l.foldr (fun b acc => b + acc * 256) 0

/-- Little-endian encoding of a 16-bit value (crc.to_bytes(2, byteorder=little)). -/
def toBytesLE2 (n : Nat) : List Nat :=
  [n % 256, n / 256 % 256]

/-- Data byte count of one page reply: page_size words (2 bytes each) for
program memory (memory_type 0x01), page_size bytes for data memory. -/
def memDataBytes (page_size memory_type : Nat) : Nat :=
  if memory_type = 1 then page_size * 2 else page_size

/-- Total bytes expected from the device for one page read: data plus 2 CRC
bytes (expected_bytes in _read_memory_page). -/
def expectedBytes (page_size memory_type : Nat) : Nat :=
  memDataBytes page_size memory_type + 2

/-- Payload/CRC split and checksum verification of _read_memory_page, applied
to the raw bytes received from the device: take the data bytes, decode the two
following bytes as the little-endian CRC, recompute CRC-16 over the data bytes
only and fail when they disagree. -/
def readMemoryPageCheck (page_size memory_type : Nat) (received : List Nat) :
    Except String (List Nat) :=
  let db := memDataBytes page_size memory_type
  let page_data := received.take db
  let received_crc := fromBytesLE ((received.drop db).take 2)
  if received_crc ≠ crc16 page_data then
    Except.error "CRC check failed"
  else
    Except.ok page_data

theorem readMemoryPageCheck_eq (page_size memory_type : Nat) (received : List Nat) :
    readMemoryPageCheck page_size memory_type received =
      if fromBytesLE ((received.drop (memDataBytes page_size memory_type)).take 2) ≠
          crc16 (received.take (memDataBytes page_size memory_type)) then
        Except.error "CRC check failed"
      else
        Except.ok (received.take (memDataBytes page_size memory_type)) := rfl

/-- C1: a page read expects exactly page_size*2 data bytes for program memory
(page_size for data memory) plus 2 little-endian CRC bytes; the CRC is
recomputed over the data payload only, and the read fails with a checksum
error exactly when the recomputed CRC differs from the received one. -/
theorem readMemoryPage_crc_spec (page_size memory_type : Nat) (received : List Nat)
    (h : received.length = expectedBytes page_size memory_type) :
    expectedBytes page_size 1 = page_size * 2 + 2 ∧
    expectedBytes page_size 2 = page_size + 2 ∧
    ((∃ e, readMemoryPageCheck page_size memory_type received = Except.error e) ↔
      crc16 (received.take (memDataBytes page_size memory_type)) ≠
        fromBytesLE (received.drop (memDataBytes page_size memory_type))) ∧
    (crc16 (received.take (memDataBytes page_size memory_type)) =
        fromBytesLE (received.drop (memDataBytes page_size memory_type)) →
      readMemoryPageCheck page_size memory_type received =
        Except.ok (received.take (memDataBytes page_size memory_type))) := by
  have h2 : received.length = memDataBytes page_size memory_type + 2 := h
  have hdrop : (received.drop (memDataBytes page_size memory_type)).take 2 =
      received.drop (memDataBytes page_size memory_type) := by
    apply List.take_of_length_le
    simp only [List.length_drop]
    omega
  have key := readMemoryPageCheck_eq page_size memory_type received
  rw [hdrop] at key
  refine ⟨by simp [expectedBytes, memDataBytes],
    by simp [expectedBytes, memDataBytes], ?_, ?_⟩
  · by_cases hc : fromBytesLE (received.drop (memDataBytes page_size memory_type)) =
        crc16 (received.take (memDataBytes page_size memory_type))
    · rw [if_neg (fun hn => hn hc)] at key
      constructor
      · rintro ⟨e, he⟩
        rw [key] at he
        exact Except.noConfusion he
      · intro hne
        exact absurd hc.symm hne
    · rw [if_pos hc] at key
      constructor
      · intro _
        exact fun hcc => hc hcc.symm
      · intro _
        exact ⟨_, key⟩
  · intro hcc
    rw [key, if_neg (fun hn => hn hcc.symm)]

/-- Concrete instance of readMemoryPage_crc_spec: page size 1, data memory,
three received bytes (one data byte plus two CRC bytes). -/
theorem readMemoryPage_crc_spec_witness :
    ([0, 0, 0] : List Nat).length = expectedBytes 1 2 ∧
    (expectedBytes 1 1 = 1 * 2 + 2 ∧
      expectedBytes 1 2 = 1 + 2 ∧
      ((∃ e, readMemoryPageCheck 1 2 [0, 0, 0] = Except.error e) ↔
        crc16 (([0, 0, 0] : List Nat).take (memDataBytes 1 2)) ≠
          fromBytesLE (([0, 0, 0] : List Nat).drop (memDataBytes 1 2))) ∧
      (crc16 (([0, 0, 0] : List Nat).take (memDataBytes 1 2)) =
          fromBytesLE (([0, 0, 0] : List Nat).drop (memDataBytes 1 2)) →
        readMemoryPageCheck 1 2 [0, 0, 0] =
          Except.ok (([0, 0, 0] : List Nat).take (memDataBytes 1 2)))) :=
  ⟨by decide, readMemoryPage_crc_spec 1 2 [0, 0, 0] (by decide)⟩

/-- Uppercase hexadecimal digit character for a value below 16. -/
def hexDigitChar (n : Nat) : Char :=
  if n < 10 then Char.ofNat (48 + n) else Char.ofNat (55 + n)

/-- Fuel-driven digit extraction: one unit of fuel per hexadecimal digit.
Fuel n+1 always suffices for the value n since the value shrinks by a factor
of 16 per digit. -/
def hexDigitsAux : Nat → Nat → List Char
  | 0, _ => []
  | fuel + 1, n =>
    if n < 16 then [hexDigitChar n]
    else hexDigitsAux fuel (n / 16) ++ [hexDigitChar (n % 16)]

/-- Minimal uppercase hexadecimal representation of a natural number,
most significant digit first (Python format X). -/
def hexDigits (n : Nat) : List Char :=
  hexDigitsAux (n + 1) n

theorem hexDigitsAux_irrel : ∀ (n f g : Nat), n ≤ f → n ≤ g →
    hexDigitsAux (f + 1) n = hexDigitsAux (g + 1) n := by
  intro n
  induction n using Nat.strong_induction_on with
  | _ n ih =>
    intro f g hf hg
    show hexDigitsAux (f + 1) n = hexDigitsAux (g + 1) n
    by_cases h16 : n < 16
    · simp [hexDigitsAux, h16]
    · have hn : 16 ≤ n := by omega
      have hdiv : n / 16 < n := Nat.div_lt_self (by omega) (by omega)
      obtain ⟨f1, rfl⟩ : ∃ f1, f = f1 + 1 := ⟨f - 1, by omega⟩
      obtain ⟨g1, rfl⟩ : ∃ g1, g = g1 + 1 := ⟨g - 1, by omega⟩
      show (if n < 16 then [hexDigitChar n]
          else hexDigitsAux (f1 + 1) (n / 16) ++ [hexDigitChar (n % 16)]) =
        (if n < 16 then [hexDigitChar n]
          else hexDigitsAux (g1 + 1) (n / 16) ++ [hexDigitChar (n % 16)])
      rw [if_neg h16, if_neg h16, ih (n / 16) hdiv f1 g1 (by omega) (by omega)]

theorem hexDigits_lt {n : Nat} (h : n < 16) : hexDigits n = [hexDigitChar n] := by
  simp [hexDigits, hexDigitsAux, h]

theorem hexDigits_ge {n : Nat} (h : 16 ≤ n) :
    hexDigits n = hexDigits (n / 16) ++ [hexDigitChar (n % 16)] := by
  have hdiv : n / 16 < n := Nat.div_lt_self (by omega) (by omega)
  obtain ⟨m, hm⟩ : ∃ m, n = m + 1 := ⟨n - 1, by omega⟩
  show hexDigitsAux (n + 1) n = _
  rw [hm]
  show (if m + 1 < 16 then [hexDigitChar (m + 1)]
      else hexDigitsAux (m + 1) ((m + 1) / 16) ++ [hexDigitChar ((m + 1) % 16)]) = _
  rw [if_neg (by omega : ¬ m + 1 < 16),
    hexDigitsAux_irrel ((m + 1) / 16) m ((m + 1) / 16) (by omega) (le_refl _)]
  rfl

/-- Zero-padded uppercase hexadecimal of width w (Python format 0wX: minimal
digits, left-padded with zeros up to w). -/
def hexPad (w n : Nat) : List Char :=
  List.replicate (w - (hexDigits n).length) (Char.ofNat 48) ++ hexDigits n

/-- Value of a single hexadecimal digit character (0 on anything else). -/
def hexDigitVal (c : Char) : Nat :=
  if 48 ≤ c.toNat ∧ c.toNat ≤ 57 then c.toNat - 48
  else if 65 ≤ c.toNat ∧ c.toNat ≤ 70 then c.toNat - 55
  else if 97 ≤ c.toNat ∧ c.toNat ≤ 102 then c.toNat - 87
  else 0

/-- Whether a character is a hexadecimal digit (int(s, 16) accepts it). -/
def isHexDigitChar (c : Char) : Bool :=
  (48 ≤ c.toNat && c.toNat ≤ 57) || (65 ≤ c.toNat && c.toNat ≤ 70) ||
    (97 ≤ c.toNat && c.toNat ≤ 102)

/-- int(s, 16) on a string of hexadecimal digits. -/
def hexDecode (l : List Char) : Nat :=
  l.foldl (fun a c => a * 16 + hexDigitVal c) 0

/-- One unit of serial traffic: an ASCII command (via _send_data) or raw
binary bytes (via _send_bytes). -/
inductive WireEvent where
  | text (s : List Char)
  | raw (b : List Nat)
deriving DecidableEq

/-- _send_data: when the port is open the string is written (and flushed);
when it is not open, the source only prints a debug message and returns, and
every exception of the write path is caught and printed. The Except result
records that no path raises; the list is the trace of writes performed. -/
def sendData (portOpen : Bool) (data : List Char) : Except String (List WireEvent) :=
  if portOpen then Except.ok [WireEvent.text data]
  else Except.ok []

/-- C9 counterexample: sending the command string 00 on a closed transport
returns silently with no error raised and no bytes written, refuting the
claim that it raises a TransportError. -/
theorem sendData_closed_counterexample :
    sendData false [Char.ofNat 48, Char.ofNat 48] = Except.ok [] := rfl

/-- C9 (amended): sending on a closed transport never raises: it silently
performs no write; on an open transport the bytes are written. -/
theorem sendData_closed_spec (data : List Char) :
    sendData false data = Except.ok [] ∧
    sendData true data = Except.ok [WireEvent.text data] :=
  ⟨rfl, rfl⟩

/-- Byte capacity of one page: page_size words of 2 bytes for program memory
(memory_type 0x01), page_size bytes for data memory. -/
def pageBytes (page_size memory_type : Nat) : Nat :=
  if memory_type = 1 then page_size * 2 else page_size

/-- The request command of _write_memory_page:
10 page_size(2) page_number(4) memory_type(2) offset(2) write_length(2). -/
def writePageCmd (page_size page_number memory_type offset write_length : Nat) :
    List Char :=
  [Char.ofNat 49, Char.ofNat 48] ++ hexPad 2 page_size ++ hexPad 4 page_number ++
    hexPad 2 memory_type ++ hexPad 2 offset ++ hexPad 2 write_length

/-- _write_memory_page, embedded as a pure function over the firmware's two
replies: ack is the terminator-delimited acknowledgment read after the
request, finalResp the terminator-delimited result read after the data
phase. The result pairs the wire trace with the segment's result string;
Except.error models the RuntimeError raises. -/
def writeMemoryPage (page_size page_number memory_type offset : Nat)
    (data : List Nat) (ack finalResp : List Char) :
    Except String (List WireEvent × List Char) :=
  if offset + data.length > pageBytes page_size memory_type then
    Except.error "Offset + length exceeds page size"
  else if data.length = 0 then
    Except.ok ([], [Char.ofNat 48])
  else
    let write_length := if memory_type = 1 then data.length / 2 else data.length
    if offset > 0xFF ∨ write_length > 0xFF then
      Except.error "Offset/length must fit in one byte"
    else
      let cmd := writePageCmd page_size page_number memory_type offset write_length
      if ack ≠ [Char.ofNat 43] then
        Except.ok ([WireEvent.text cmd], ack)
      else
        Except.ok ([WireEvent.text cmd, WireEvent.raw data,
          WireEvent.raw (toBytesLE2 (crc16 data))], finalResp)

/-- C2: for a write-page segment that passes the size checks, the data phase
(segment bytes then CRC bytes) happens exactly when the acknowledgment is
the one-character string +; any other acknowledgment becomes the segment's
final outcome with no data or CRC bytes sent. -/
theorem writeMemoryPage_ack_gate (page_size page_number memory_type offset : Nat)
    (data : List Nat) (ack finalResp : List Char)
    (hfit : offset + data.length ≤ pageBytes page_size memory_type)
    (hne : data ≠ [])
    (hoff : offset ≤ 0xFF)
    (hlen : (if memory_type = 1 then data.length / 2 else data.length) ≤ 0xFF) :
    (ack = [Char.ofNat 43] →
      writeMemoryPage page_size page_number memory_type offset data ack finalResp =
        Except.ok ([WireEvent.text (writePageCmd page_size page_number memory_type
            offset (if memory_type = 1 then data.length / 2 else data.length)),
          WireEvent.raw data, WireEvent.raw (toBytesLE2 (crc16 data))], finalResp)) ∧
    (ack ≠ [Char.ofNat 43] →
      writeMemoryPage page_size page_number memory_type offset data ack finalResp =
        Except.ok ([WireEvent.text (writePageCmd page_size page_number memory_type
            offset (if memory_type = 1 then data.length / 2 else data.length))],
          ack)) := by
  have hlen0 : data.length ≠ 0 := fun h => hne (List.eq_nil_of_length_eq_zero h)
  constructor
  · intro hack
    unfold writeMemoryPage
    rw [if_neg (by omega), if_neg hlen0, if_neg (by push_neg; omega)]
    simp only [hack]
    rw [if_neg (by simp)]
  · intro hack
    unfold writeMemoryPage
    rw [if_neg (by omega), if_neg hlen0, if_neg (by push_neg; omega)]
    rw [if_pos hack]

/-- Concrete instance of writeMemoryPage_ack_gate: data memory, page size 4,
one data byte, acknowledgment +. -/
theorem writeMemoryPage_ack_gate_witness :
    (0 + ([7] : List Nat).length ≤ pageBytes 4 2 ∧ ([7] : List Nat) ≠ [] ∧
      (0 : Nat) ≤ 0xFF ∧
      (if (2 : Nat) = 1 then ([7] : List Nat).length / 2
        else ([7] : List Nat).length) ≤ 0xFF) ∧
    (([Char.ofNat 43] : List Char) = [Char.ofNat 43] →
      writeMemoryPage 4 0 2 0 [7] [Char.ofNat 43] [Char.ofNat 48] =
        Except.ok ([WireEvent.text (writePageCmd 4 0 2 0
            (if (2 : Nat) = 1 then ([7] : List Nat).length / 2
              else ([7] : List Nat).length)),
          WireEvent.raw [7], WireEvent.raw (toBytesLE2 (crc16 [7]))],
          [Char.ofNat 48])) ∧
    (([Char.ofNat 43] : List Char) ≠ [Char.ofNat 43] →
      writeMemoryPage 4 0 2 0 [7] [Char.ofNat 43] [Char.ofNat 48] =
        Except.ok ([WireEvent.text (writePageCmd 4 0 2 0
            (if (2 : Nat) = 1 then ([7] : List Nat).length / 2
              else ([7] : List Nat).length))], [Char.ofNat 43])) :=
  ⟨⟨by decide, by decide, by decide, by decide⟩,
    writeMemoryPage_ack_gate 4 0 2 0 [7] [Char.ofNat 43] [Char.ofNat 48]
      (by decide) (by decide) (by decide) (by decide)⟩

/-- C3 counterexample: a one-byte program-memory segment is accepted, the
encoded length field is 1 / 2 = 0 words, yet one data byte is sent — so the
number of data bytes sent is not twice the encoded length. -/
theorem writeMemoryPage_word_length_counterexample :
    writeMemoryPage 64 0 1 0 [171] [Char.ofNat 43] [Char.ofNat 48] =
      Except.ok ([WireEvent.text (writePageCmd 64 0 1 0 0),
        WireEvent.raw [171], WireEvent.raw (toBytesLE2 (crc16 [171]))],
        [Char.ofNat 48]) ∧
    ([171] : List Nat).length ≠ 2 * 0 :=
  ⟨rfl, by decide⟩

/-- C3 (amended): the length field is the byte count integer-divided by two
(words, rounded down) for program memory and the byte count for data memory;
the data bytes sent are the whole segment (twice the encoded length plus the
parity remainder for program memory); a hard failure is raised when
offset + byte count exceeds the page's byte capacity, or, for a non-empty
segment, when offset or the encoded length exceed one byte. -/
theorem writeMemoryPage_length_spec :
    (∀ page_size page_number memory_type offset (data : List Nat) ack finalResp,
      offset + data.length > pageBytes page_size memory_type →
      writeMemoryPage page_size page_number memory_type offset data ack finalResp =
        Except.error "Offset + length exceeds page size") ∧
    (∀ page_size page_number memory_type offset (data : List Nat) ack finalResp,
      offset + data.length ≤ pageBytes page_size memory_type → data ≠ [] →
      (offset > 0xFF ∨
        (if memory_type = 1 then data.length / 2 else data.length) > 0xFF) →
      writeMemoryPage page_size page_number memory_type offset data ack finalResp =
        Except.error "Offset/length must fit in one byte") ∧
    (∀ page_size page_number offset (data : List Nat) finalResp,
      offset + data.length ≤ pageBytes page_size 1 → data ≠ [] →
      offset ≤ 0xFF → data.length / 2 ≤ 0xFF →
      writeMemoryPage page_size page_number 1 offset data [Char.ofNat 43] finalResp =
        Except.ok ([WireEvent.text
            (writePageCmd page_size page_number 1 offset (data.length / 2)),
          WireEvent.raw data, WireEvent.raw (toBytesLE2 (crc16 data))], finalResp) ∧
      data.length = 2 * (data.length / 2) + data.length % 2) ∧
    (∀ page_size page_number offset (data : List Nat) finalResp,
      offset + data.length ≤ pageBytes page_size 2 → data ≠ [] →
      offset ≤ 0xFF → data.length ≤ 0xFF →
      writeMemoryPage page_size page_number 2 offset data [Char.ofNat 43] finalResp =
        Except.ok ([WireEvent.text
            (writePageCmd page_size page_number 2 offset data.length),
          WireEvent.raw data, WireEvent.raw (toBytesLE2 (crc16 data))], finalResp)) := by
  refine ⟨?_, ?_, ?_, ?_⟩
  · intro page_size page_number memory_type offset data ack finalResp hgt
    unfold writeMemoryPage
    rw [if_pos hgt]
  · intro page_size page_number memory_type offset data ack finalResp hle hne hbig
    have hlen0 : data.length ≠ 0 := fun h => hne (List.eq_nil_of_length_eq_zero h)
    unfold writeMemoryPage
    rw [if_neg (by omega), if_neg hlen0, if_pos hbig]
  · intro page_size page_number offset data finalResp hle hne hoff hlen
    have hlen0 : data.length ≠ 0 := fun h => hne (List.eq_nil_of_length_eq_zero h)
    refine ⟨?_, by omega⟩
    unfold writeMemoryPage
    rw [if_neg (by omega), if_neg hlen0, if_neg (by push_neg; simp; omega)]
    rw [if_neg (by simp)]
    simp
  · intro page_size page_number offset data finalResp hle hne hoff hlen
    have hlen0 : data.length ≠ 0 := fun h => hne (List.eq_nil_of_length_eq_zero h)
    unfold writeMemoryPage
    rw [if_neg (by omega), if_neg hlen0, if_neg (by push_neg; simp; omega)]
    rw [if_neg (by simp)]
    simp

/-- Concrete instances of writeMemoryPage_length_spec: an out-of-page
segment raises, and a three-byte program-memory segment is sent whole with
encoded length 1 word. -/
theorem writeMemoryPage_length_spec_witness :
    (writeMemoryPage 4 0 2 5 [1, 2, 3] [Char.ofNat 43] [Char.ofNat 48] =
      Except.error "Offset + length exceeds page size") ∧
    (writeMemoryPage 8 0 1 0 [1, 2, 3] [Char.ofNat 43] [Char.ofNat 48] =
        Except.ok ([WireEvent.text
            (writePageCmd 8 0 1 0 (([1, 2, 3] : List Nat).length / 2)),
          WireEvent.raw [1, 2, 3], WireEvent.raw (toBytesLE2 (crc16 [1, 2, 3]))],
          [Char.ofNat 48]) ∧
      ([1, 2, 3] : List Nat).length = 2 * (([1, 2, 3] : List Nat).length / 2) +
        ([1, 2, 3] : List Nat).length % 2) :=
  ⟨writeMemoryPage_length_spec.1 4 0 2 5 [1, 2, 3] [Char.ofNat 43] [Char.ofNat 48]
      (by decide),
    writeMemoryPage_length_spec.2.2.1 8 0 0 [1, 2, 3] [Char.ofNat 48]
      (by decide) (by decide) (by decide) (by decide)⟩

/-- Whether the two-character terminator CR LF occurs anywhere in the buffer
(the Python test for the CRLF substring in _read_data). -/
def containsCRLF : List Char → Bool
  | a :: b :: rest =>
    (a == Char.ofNat 13 && b == Char.ofNat 10) || containsCRLF (b :: rest)
  | _ => false

/-- Python replace of NUL with the empty string: drop every NUL character. -/
def removeNul (l : List Char) : List Char :=
  l.filter (fun c => c != Char.ofNat 0)

/-- Python replace of CRLF with the empty string: drop every (left-to-right,
non-overlapping) CR LF pair. -/
def removeCRLF : List Char → List Char
  | a :: b :: rest =>
    if a == Char.ofNat 13 && b == Char.ofNat 10 then removeCRLF rest
    else a :: removeCRLF (b :: rest)
  | l => l

/-- The synthesized response of _read_response_until_newline when the
timeout elapses with an empty buffer. -/
def timeoutMessage : List Char :=
  "1 Timeout waiting for response (no data received)".toList

/-- The polling loop of _read_response_until_newline. Each loop iteration
first checks the deadline, then appends whatever bytes are waiting (the next
entry of chunks, empty when nothing is waiting) and tests for CRLF; budget is
the number of iterations that run before the deadline trips. On the
deadline: an empty buffer is replaced by the synthesized timeout message,
anything else is returned as accumulated. On CRLF: NULs and CRLF pairs are
stripped and the buffer returned. -/
def readRespLoop : Nat → List (List Char) → List Char → List Char
  | 0, _, acc => if acc = [] then timeoutMessage else acc
  | budget + 1, chunks, acc =>
    let acc2 := acc ++ chunks.headD []
    if containsCRLF acc2 then removeCRLF (removeNul acc2)
    else readRespLoop budget chunks.tail acc2

/-- _read_response_until_newline: run the polling loop on an empty buffer. -/
def readResponseUntilNewline (budget : Nat) (chunks : List (List Char)) : List Char :=
  readRespLoop budget chunks []

theorem containsCRLF_append_false {l l2 : List Char}
    (h : containsCRLF (l ++ l2) = false) : containsCRLF l = false := by
  induction l with
  | nil => rfl
  | cons a rest ih =>
    cases rest with
    | nil => rfl
    | cons b rest2 =>
      simp only [List.cons_append, containsCRLF, Bool.or_eq_false_iff] at h
      simp only [containsCRLF, Bool.or_eq_false_iff]
      exact ⟨h.1, ih (by simpa using h.2)⟩

theorem flatten_take_succ (chunks : List (List Char)) (n : Nat) :
    (chunks.take (n + 1)).flatten = chunks.headD [] ++ (chunks.tail.take n).flatten := by
  cases chunks <;> simp

theorem readRespLoop_no_crlf : ∀ (budget : Nat) (chunks : List (List Char))
    (acc : List Char),
    containsCRLF (acc ++ (chunks.take budget).flatten) = false →
    readRespLoop budget chunks acc =
      (if acc ++ (chunks.take budget).flatten = [] then timeoutMessage
        else acc ++ (chunks.take budget).flatten) := by
  intro budget
  induction budget with
  | zero =>
    intro chunks acc _
    simp [readRespLoop]
  | succ n ih =>
    intro chunks acc h
    rw [flatten_take_succ] at h
    have hacc2 : containsCRLF (acc ++ chunks.headD []) = false :=
      @containsCRLF_append_false (acc ++ chunks.headD [])
        ((chunks.tail.take n).flatten) (by rw [List.append_assoc]; exact h)
    show (if containsCRLF (acc ++ chunks.headD []) then
        removeCRLF (removeNul (acc ++ chunks.headD []))
      else readRespLoop n chunks.tail (acc ++ chunks.headD [])) = _
    rw [hacc2]
    simp only [Bool.false_eq_true, if_false]
    rw [ih chunks.tail (acc ++ chunks.headD []) (by rw [List.append_assoc]; exact h)]
    rw [flatten_take_succ, List.append_assoc]

/-- C8: when the terminator never arrives within the deadline, the read
returns the exact synthesized string 1 Timeout waiting for response (no data
received) if nothing at all was received, and the partial buffer as-is (all
received chunks concatenated, unmodified) otherwise. -/
theorem readResponseUntilNewline_timeout_spec (budget : Nat)
    (chunks : List (List Char))
    (h : containsCRLF ((chunks.take budget).flatten) = false) :
    ((chunks.take budget).flatten = [] →
      readResponseUntilNewline budget chunks =
        "1 Timeout waiting for response (no data received)".toList) ∧
    ((chunks.take budget).flatten ≠ [] →
      readResponseUntilNewline budget chunks = (chunks.take budget).flatten) := by
  have key := readRespLoop_no_crlf budget chunks [] (by simpa using h)
  simp only [List.nil_append] at key
  constructor
  · intro hempty
    rw [readResponseUntilNewline, key, if_pos hempty]
    rfl
  · intro hne
    rw [readResponseUntilNewline, key, if_neg hne]

/-- Concrete instances of readResponseUntilNewline_timeout_spec: with no
data at all the synthesized timeout string is returned; with one chunk of
two characters and no terminator the partial buffer is returned as-is. -/
theorem readResponseUntilNewline_timeout_spec_witness :
    (containsCRLF ((([] : List (List Char)).take 2).flatten) = false ∧
      readResponseUntilNewline 2 [] =
        "1 Timeout waiting for response (no data received)".toList) ∧
    (containsCRLF ((([[Char.ofNat 97, Char.ofNat 98]] :
        List (List Char)).take 2).flatten) = false ∧
      readResponseUntilNewline 2 [[Char.ofNat 97, Char.ofNat 98]] =
        [Char.ofNat 97, Char.ofNat 98]) :=
  ⟨⟨by decide, (readResponseUntilNewline_timeout_spec 2 [] (by decide)).1 (by decide)⟩,
    ⟨by decide, by
      have := (readResponseUntilNewline_timeout_spec 2
        [[Char.ofNat 97, Char.ofNat 98]] (by decide)).2 (by decide)
      simpa using this⟩⟩

/-- The merge loop of _segment_page_data: walk the sorted offsets, extend the
current run while the next offset is prev+1, otherwise close the run and open
a new one; the final run is closed at the end. -/
def segLoop (values : Nat → Nat) : List Nat → Nat → List Nat → Nat →
    List (Nat × List Nat)
  | [], start, current, _ => [(start, current)]
  | off :: rest, start, current, prev =>
    if off = prev + 1 then segLoop values rest start (current ++ [values off]) off
    else (start, current) :: segLoop values rest off [values off] off

/-- The boundary-splitting while-loop of _segment_page_data, with explicit
fuel (the source loop would not terminate when an empty chunk is produced,
which cannot happen for offsets inside the page; the fuel-out and
empty-chunk branches return early instead). -/
def splitSegAux : Nat → Nat → Nat → List Nat → List (Nat × List Nat)
  | 0, _, _, _ => []
  | fuel + 1, page_bytes, current_offset, data =>
    if data = [] then []
    else
      let chunk := data.take (page_bytes - current_offset)
      if chunk = [] then []
      else (current_offset, chunk) ::
        splitSegAux fuel page_bytes (current_offset + chunk.length)
          (data.drop chunk.length)

/-- Split one merged run at the page boundary (fuel data.length suffices
since every emitted chunk is non-empty). -/
def splitSegment (page_bytes start : Nat) (data : List Nat) :
    List (Nat × List Nat) :=
  splitSegAux data.length page_bytes start data

/-- Merge-and-split phase of _segment_page_data on the already-sorted offset
list: an empty list yields no segments (the early return), otherwise the
merge loop starts a run at the first offset and every merged run is split at
the page boundary. -/
def segmentSorted (page_bytes : Nat) (values : Nat → Nat) :
    List Nat → List (Nat × List Nat)
  | [] => []
  | s :: rest =>
    (segLoop values rest s [values s] s).flatMap
      (fun seg => splitSegment page_bytes seg.1 seg.2)

/-- _segment_page_data: sort the offsets, merge adjacent ones into runs,
then split any run exceeding the page boundary. -/
def segmentPageData (page_bytes : Nat) (offsets : List Nat) (values : Nat → Nat) :
    List (Nat × List Nat) :=
  segmentSorted page_bytes values (List.insertionSort (· ≤ ·) offsets)

theorem segLoop_invariant (values : Nat → Nat) :
    ∀ (rest : List Nat) (start prev B : Nat),
    start ≤ prev → prev < B →
    rest.Pairwise (· < ·) → (∀ x ∈ rest, prev < x) → (∀ x ∈ rest, x < B) →
    ∃ d tl,
      segLoop values rest start
          ((List.range (prev + 1 - start)).map (fun i => values (start + i))) prev =
        (start, d) :: tl ∧
      ((((start, d) :: tl).flatMap fun s => List.range' s.1 s.2.length) =
        List.range' start (prev + 1 - start) ++ rest) ∧
      (∀ s ∈ (start, d) :: tl,
        s.2 = (List.range s.2.length).map (fun i => values (s.1 + i)) ∧ s.2 ≠ []) ∧
      List.Chain' (fun a b => a.1 + a.2.length < b.1) ((start, d) :: tl) ∧
      (∀ s ∈ (start, d) :: tl, s.1 + s.2.length ≤ B) := by
  intro rest
  induction rest with
  | nil =>
    intro start prev B h1 h2 _ _ _
    refine ⟨_, [], rfl, ?_, ?_, ?_, ?_⟩
    · simp
    · intro s hs
      rw [List.mem_singleton] at hs
      subst hs
      constructor
      · simp
      · simp
        omega
    · simp
    · intro s hs
      rw [List.mem_singleton] at hs
      subst hs
      simp
      omega
  | cons off rest ih =>
    intro start prev B h1 h2 hpw hgt hlt
    rw [List.pairwise_cons] at hpw
    have hoffgt : prev < off := hgt off (List.mem_cons_self _ _)
    have hoffB : off < B := hlt off (List.mem_cons_self _ _)
    by_cases hoff : off = prev + 1
    · have hcur : ((List.range (prev + 1 - start)).map (fun i => values (start + i)))
          ++ [values off] =
          (List.range (off + 1 - start)).map (fun i => values (start + i)) := by
        have hlen : off + 1 - start = (prev + 1 - start) + 1 := by omega
        rw [hlen, List.range_succ, List.map_append]
        have : start + (prev + 1 - start) = off := by omega
        simp [this]
      have step : segLoop values (off :: rest) start
          ((List.range (prev + 1 - start)).map (fun i => values (start + i))) prev =
          segLoop values rest start
            ((List.range (off + 1 - start)).map (fun i => values (start + i))) off := by
        show (if off = prev + 1 then _ else _) = _
        rw [if_pos hoff, hcur]
      obtain ⟨d, tl, heq, hcov, hdata, hchain, hbound⟩ :=
        ih start off B (by omega) hoffB hpw.2 hpw.1 (fun x hx => hlt x (List.mem_cons_of_mem _ hx))
      refine ⟨d, tl, by rw [step, heq], ?_, hdata, hchain, hbound⟩
      rw [hcov]
      have hlen : off + 1 - start = (prev + 1 - start) + 1 := by omega
      rw [hlen, List.range'_concat]
      have hoffeq : start + 1 * (prev + 1 - start) = off := by omega
      rw [hoffeq, List.append_assoc]
      rfl
    · have hoff2 : prev + 1 < off := by omega
      have hone : ([values off] : List Nat) =
          (List.range (off + 1 - off)).map (fun i => values (off + i)) := by
        rw [show off + 1 - off = 1 by omega]
        simp [List.range_succ]
      have step : segLoop values (off :: rest) start
          ((List.range (prev + 1 - start)).map (fun i => values (start + i))) prev =
          (start, (List.range (prev + 1 - start)).map (fun i => values (start + i))) ::
            segLoop values rest off
              ((List.range (off + 1 - off)).map (fun i => values (off + i))) off := by
        show (if off = prev + 1 then _ else _) = _
        rw [if_neg hoff, ← hone]
      obtain ⟨d, tl, heq, hcov, hdata, hchain, hbound⟩ :=
        ih off off B le_rfl hoffB hpw.2 (fun x hx => hpw.1 x hx)
          (fun x hx => hlt x (List.mem_cons_of_mem _ hx))
      rw [heq] at step
      refine ⟨_, (off, d) :: tl, step, ?_, ?_, ?_, ?_⟩
      · rw [List.flatMap_cons, hcov]
        simp only [List.length_map, List.length_range]
        rw [show off + 1 - off = 1 by omega, List.range'_one]
        rfl
      · intro s hs
        rcases List.mem_cons.mp hs with hs | hs
        · subst hs
          refine ⟨by simp, ?_⟩
          simp
          omega
        · exact hdata s hs
      · rw [List.chain'_cons]
        constructor
        · simp only [List.length_map, List.length_range]
          omega
        · exact hchain
      · intro s hs
        rcases List.mem_cons.mp hs with hs | hs
        · subst hs
          simp only [List.length_map, List.length_range]
          omega
        · exact hbound s hs

theorem splitSegAux_nil (fuel page_bytes current_offset : Nat) :
    splitSegAux fuel page_bytes current_offset [] = [] := by
  cases fuel <;> simp [splitSegAux]

theorem splitSegment_of_fits (page_bytes start : Nat) (data : List Nat)
    (hne : data ≠ []) (hfit : start + data.length ≤ page_bytes) :
    splitSegment page_bytes start data = [(start, data)] := by
  obtain ⟨n, hn⟩ : ∃ n, data.length = n + 1 := by
    cases hd : data with
    | nil => exact absurd hd hne
    | cons a l => exact ⟨l.length, by simp [hd]⟩
  have htake : data.take (page_bytes - start) = data :=
    List.take_of_length_le (by omega)
  rw [splitSegment, hn]
  simp only [splitSegAux, if_neg hne, htake]
  rw [List.drop_length, splitSegAux_nil]

theorem flatMap_split_of_fits (page_bytes : Nat) :
    ∀ (segs : List (Nat × List Nat)),
    (∀ s ∈ segs, s.2 ≠ [] ∧ s.1 + s.2.length ≤ page_bytes) →
    segs.flatMap (fun seg => splitSegment page_bytes seg.1 seg.2) = segs := by
  intro segs
  induction segs with
  | nil => intro _; rfl
  | cons a l ih =>
    intro h
    rw [List.flatMap_cons,
      splitSegment_of_fits page_bytes a.1 a.2 (h a (List.mem_cons_self _ _)).1
        (h a (List.mem_cons_self _ _)).2,
      ih (fun s hs => h s (List.mem_cons_of_mem _ hs))]
    rfl

/-- C5: segmentation yields exactly the maximal contiguous runs of the
present offsets, ascending, none crossing the page boundary: the segments
cover the sorted offset list exactly and in order; each segment carries the
bytes of a non-empty contiguous run; consecutive segments are separated by a
gap; every segment ends by the page's byte boundary; and the concrete page
of byte-size 64 with offsets 0,1,2,10,11,12,63 yields exactly the runs
(0, 3 bytes), (10, 3 bytes), (63, 1 byte). -/
theorem segmentPageData_spec (page_bytes : Nat) (offsets : List Nat)
    (values : Nat → Nat) (hnd : offsets.Nodup)
    (hbound : ∀ o ∈ offsets, o < page_bytes) :
    ((segmentPageData page_bytes offsets values).flatMap
        (fun s => List.range' s.1 s.2.length) =
      List.insertionSort (· ≤ ·) offsets) ∧
    (∀ s ∈ segmentPageData page_bytes offsets values,
      s.2 = (List.range s.2.length).map (fun i => values (s.1 + i)) ∧ s.2 ≠ []) ∧
    List.Chain' (fun a b => a.1 + a.2.length < b.1)
      (segmentPageData page_bytes offsets values) ∧
    (∀ s ∈ segmentPageData page_bytes offsets values,
      s.1 + s.2.length ≤ page_bytes) ∧
    segmentPageData 64 [0, 1, 2, 10, 11, 12, 63] (fun o => o) =
      [(0, [0, 1, 2]), (10, [10, 11, 12]), (63, [63])] := by
  have hperm := List.perm_insertionSort (· ≤ ·) offsets
  have hsortedle : (List.insertionSort (· ≤ ·) offsets).Sorted (· ≤ ·) :=
    List.sorted_insertionSort (· ≤ ·) offsets
  have hnds : (List.insertionSort (· ≤ ·) offsets).Nodup :=
    hperm.nodup_iff.mpr hnd
  have hpwlt : (List.insertionSort (· ≤ ·) offsets).Pairwise (· < ·) :=
    (hsortedle.and hnds).imp (fun h => lt_of_le_of_ne h.1 h.2)
  have hbs : ∀ x ∈ List.insertionSort (· ≤ ·) offsets, x < page_bytes :=
    fun x hx => hbound x (hperm.mem_iff.mp hx)
  cases hs : List.insertionSort (· ≤ ·) offsets with
  | nil =>
    have hempty : segmentPageData page_bytes offsets values = [] := by
      rw [segmentPageData, hs]
      rfl
    rw [hempty]
    exact ⟨rfl, by simp, by simp, by simp, by decide⟩
  | cons s rest =>
    rw [hs] at hpwlt hbs
    rw [List.pairwise_cons] at hpwlt
    have hsB : s < page_bytes := hbs s (List.mem_cons_self _ _)
    obtain ⟨d, tl, heq, hcov, hdata, hchain, hbnd⟩ :=
      segLoop_invariant values rest s s page_bytes le_rfl hsB hpwlt.2 hpwlt.1
        (fun x hx => hbs x (List.mem_cons_of_mem _ hx))
    have hinit : ([values s] : List Nat) =
        (List.range (s + 1 - s)).map (fun i => values (s + i)) := by
      rw [show s + 1 - s = 1 by omega]
      simp [List.range_succ]
    have hseg : segmentPageData page_bytes offsets values = (s, d) :: tl := by
      rw [segmentPageData, hs]
      show (segLoop values rest s [values s] s).flatMap
          (fun seg => splitSegment page_bytes seg.1 seg.2) = _
      rw [hinit, heq]
      exact flatMap_split_of_fits page_bytes _
        (fun x hx => ⟨(hdata x hx).2, hbnd x hx⟩)
    refine ⟨?_, ?_, ?_, ?_, by decide⟩
    · rw [hseg, hcov, show s + 1 - s = 1 by omega, List.range'_one]
      rfl
    · rw [hseg]
      exact hdata
    · rw [hseg]
      exact hchain
    · rw [hseg]
      exact hbnd

/-- Concrete instance of segmentPageData_spec at the page of byte-size 64
with offsets 0,1,2,10,11,12,63 and identity values. -/
theorem segmentPageData_spec_witness :
    (([0, 1, 2, 10, 11, 12, 63] : List Nat).Nodup ∧
      ∀ o ∈ ([0, 1, 2, 10, 11, 12, 63] : List Nat), o < 64) ∧
    ((segmentPageData 64 [0, 1, 2, 10, 11, 12, 63] (fun o => o)).flatMap
        (fun s => List.range' s.1 s.2.length) =
      List.insertionSort (· ≤ ·) [0, 1, 2, 10, 11, 12, 63]) ∧
    (∀ s ∈ segmentPageData 64 [0, 1, 2, 10, 11, 12, 63] (fun o => o),
      s.2 = (List.range s.2.length).map (fun i => (fun o => o) (s.1 + i)) ∧
        s.2 ≠ []) ∧
    List.Chain' (fun a b => a.1 + a.2.length < b.1)
      (segmentPageData 64 [0, 1, 2, 10, 11, 12, 63] (fun o => o)) ∧
    (∀ s ∈ segmentPageData 64 [0, 1, 2, 10, 11, 12, 63] (fun o => o),
      s.1 + s.2.length ≤ 64) ∧
    segmentPageData 64 [0, 1, 2, 10, 11, 12, 63] (fun o => o) =
      [(0, [0, 1, 2]), (10, [10, 11, 12]), (63, [63])] :=
  ⟨⟨by decide, by decide⟩,
    segmentPageData_spec 64 [0, 1, 2, 10, 11, 12, 63] (fun o => o)
      (by decide) (by decide)⟩

/-- Python dict assignment d[k] = v on an association list: update the value
in place when the key is present (keeping its position), append otherwise. -/
def assocUpd {α : Type} : List (Nat × α) → Nat → α → List (Nat × α)
  | [], k, v => [(k, v)]
  | (k0, v0) :: rest, k, v =>
    if k0 = k then (k0, v) :: rest else (k0, v0) :: assocUpd rest k v

/-- Python dict lookup on an association list. -/
def assocGet {α : Type} : List (Nat × α) → Nat → Option α
  | [], _ => none
  | (k0, v0) :: rest, k => if k0 = k then some v0 else assocGet rest k

/-- The page-partition loop of _write_memory_from_hex: for every (addr,
value) of the memory map, file value under page addr / page_bytes at offset
addr % page_bytes (dict-of-dict with setdefault, insertion order). -/
def pagesOf (page_bytes : Nat) (memory : List (Nat × Nat)) :
    List (Nat × List (Nat × Nat)) :=
  memory.foldl (fun pages av =>
    assocUpd pages (av.1 / page_bytes)
      (assocUpd ((assocGet pages (av.1 / page_bytes)).getD []) (av.1 % page_bytes)
        av.2)) []

/-- Python min over a non-empty list of naturals (0 for the empty list,
which the source never passes). -/
def listMin : List Nat → Nat
  | [] => 0
  | a :: rest => rest.foldl Nat.min a

/-- Failure modes of a bulk write, tagging which raise of
_write_memory_from_hex (or of the page writes it performs) fired. -/
inductive BulkWriteErr where
  | noData
  | addrOutOfRange (addr : Nat)
  | pageError (msg : String)
deriving DecidableEq

/-- The per-page segment loop of _write_memory_from_hex: write each segment
with _write_memory_page, consuming two firmware replies per segment (indexed
by the running reply counter); stop at the first response other than 0,
which becomes the loop's outcome. Returns the updated reply counter, the
wire trace, and the outcome (none = all segments succeeded). -/
def writeSegLoop (page_size page_number memory_type : Nat)
    (replies : Nat → List Char × List Char) :
    List (Nat × List Nat) → Nat →
    Nat × List WireEvent × Except String (Option (List Char))
  | [], k => (k, [], Except.ok none)
  | (off, data) :: rest, k =>
    match writeMemoryPage page_size page_number memory_type off data
        (replies k).1 (replies k).2 with
    | Except.error e => (k, [], Except.error e)
    | Except.ok (evs, resp) =>
      if resp = [Char.ofNat 48] then
        let r := writeSegLoop page_size page_number memory_type replies rest (k + 1)
        (r.1, evs ++ r.2.1, r.2.2)
      else (k + 1, evs, Except.ok (some resp))

/-- The page loop of _write_memory_from_hex over the pages sorted by page
number: segment each page's offsets and run the segment loop; the first
segment failure (firmware response or raise) short-circuits the whole
write, otherwise the result is 0. -/
def writePagesLoop (page_size memory_type page_bytes : Nat)
    (replies : Nat → List Char × List Char) :
    List (Nat × List (Nat × Nat)) → Nat →
    List WireEvent × Except String (List Char)
  | [], _ => ([], Except.ok [Char.ofNat 48])
  | (pn, inner) :: rest, k =>
    let segs := segmentPageData page_bytes (inner.map Prod.fst)
      (fun o => (assocGet inner o).getD 0)
    match writeSegLoop page_size pn memory_type replies segs k with
    | (_, tr, Except.error e) => (tr, Except.error e)
    | (_, tr, Except.ok (some resp)) => (tr, Except.ok resp)
    | (k2, tr, Except.ok none) =>
      let r := writePagesLoop page_size memory_type page_bytes replies rest k2
      (tr ++ r.1, r.2)

/-- _write_memory_from_hex on an already-parsed memory map: reject an empty
map, reject (naming the smallest offending address) any address at or past
total_size before anything is sent, then partition into pages, sort by page
number and run the page loop. The first component is the full wire trace. -/
def writeMemoryFromHex (total_size page_size memory_type : Nat)
    (memory : List (Nat × Nat)) (replies : Nat → List Char × List Char) :
    List WireEvent × Except BulkWriteErr (List Char) :=
  if memory = [] then ([], Except.error BulkWriteErr.noData)
  else
    let out_of_range := (memory.map Prod.fst).filter (fun a => total_size ≤ a)
    if out_of_range = [] then
      let pages := List.insertionSort (fun a b => a.1 ≤ b.1)
        (pagesOf (pageBytes page_size memory_type) memory)
      let r := writePagesLoop page_size memory_type
        (pageBytes page_size memory_type) replies pages 0
      (r.1, r.2.mapError BulkWriteErr.pageError)
    else ([], Except.error (BulkWriteErr.addrOutOfRange (listMin out_of_range)))

/-- C4: a bulk write with any parsed address at or past the target memory's
total size fails before any bytes are sent (empty wire trace), naming the
smallest offending address; with every address in range, no address-range
failure can occur. -/
theorem writeMemoryFromHex_addr_check (total_size page_size memory_type : Nat)
    (memory : List (Nat × Nat)) (replies : Nat → List Char × List Char) :
    ((∃ av ∈ memory, total_size ≤ av.1) →
      writeMemoryFromHex total_size page_size memory_type memory replies =
        ([], Except.error (BulkWriteErr.addrOutOfRange
          (listMin ((memory.map Prod.fst).filter (fun a => total_size ≤ a)))))) ∧
    ((∀ av ∈ memory, av.1 < total_size) →
      ∀ a, (writeMemoryFromHex total_size page_size memory_type memory replies).2 ≠
        Except.error (BulkWriteErr.addrOutOfRange a)) := by
  constructor
  · rintro ⟨av, hav, hge⟩
    have hne : memory ≠ [] := fun h => by subst h; exact absurd hav (List.not_mem_nil av)
    have hmem : av.1 ∈ (memory.map Prod.fst).filter (fun a => total_size ≤ a) :=
      List.mem_filter.mpr ⟨List.mem_map.mpr ⟨av, hav, rfl⟩, by simpa using hge⟩
    have hfne : (memory.map Prod.fst).filter (fun a => total_size ≤ a) ≠ [] :=
      List.ne_nil_of_mem hmem
    rw [writeMemoryFromHex, if_neg hne]
    simp only [if_neg hfne]
  · intro hlt a
    by_cases hne : memory = []
    · rw [writeMemoryFromHex, if_pos hne]
      simp
    · have hfe : (memory.map Prod.fst).filter (fun a => total_size ≤ a) = [] := by
        rw [List.filter_eq_nil_iff]
        intro x hx
        obtain ⟨av, hav, rfl⟩ := List.mem_map.mp hx
        simpa using Nat.not_le.mpr (hlt av hav)
      rw [writeMemoryFromHex, if_neg hne]
      simp only [hfe, if_pos]
      cases hres : (writePagesLoop page_size memory_type
          (pageBytes page_size memory_type) replies
          (List.insertionSort (fun a b => a.1 ≤ b.1)
            (pagesOf (pageBytes page_size memory_type) memory)) 0).2 with
      | error e => simp [hres, Except.mapError]
      | ok v => simp [hres, Except.mapError]

/-- Concrete instance of writeMemoryFromHex_addr_check: a map whose single
entry lies at address 9 in a 4-byte memory fails naming address 9 with an
empty trace. -/
theorem writeMemoryFromHex_addr_check_witness :
    writeMemoryFromHex 4 4 2 [(9, 1)] (fun _ => ([], [])) =
      ([], Except.error (BulkWriteErr.addrOutOfRange
        (listMin ((([(9, 1)] : List (Nat × Nat)).map Prod.fst).filter
          (fun a => 4 ≤ a))))) :=
  (writeMemoryFromHex_addr_check 4 4 2 [(9, 1)] (fun _ => ([], []))).1
    ⟨(9, 1), by decide, by decide⟩

/-- Properties of one supported chip (the ChipProperties TypedDict). -/
structure ChipProperties where
  chip_id : List Char
  flash_page_size : Nat
  flash_total_size : Nat
  eeprom_page_size : Nat
  eeprom_total_size : Nat
deriving DecidableEq

/-- The CHIP_PROPERTIES table of AtmelHighVoltageParallelProgrammer. -/
def CHIP_PROPERTIES : List (String × ChipProperties) :=
  [("ATMEGA8(A)(L)", ⟨"0008".toList, 32, 1024, 4, 512⟩),
   ("ATMEGA48", ⟨"0048".toList, 32, 4096, 4, 256⟩),
   ("ATMEGA168(P)(PA)", ⟨"0168".toList, 64, 16384, 4, 512⟩),
   ("ATMEGA328(P)", ⟨"0328".toList, 64, 32768, 4, 1024⟩),
   ("ATTINY2313(V)", ⟨"2313".toList, 16, 2048, 4, 128⟩),
   ("ATMEGA1284(P)", ⟨"1284".toList, 128, 131072, 8, 4096⟩)]

/-- Table lookup by chip name. -/
def chipProps (name : String) : Option ChipProperties :=
  (CHIP_PROPERTIES.find? (fun e => e.1 == name)).map Prod.snd

/-- The page-read command of _read_memory_page:
09 page_size(2) page_number(4) memory_type(2). -/
def readPageCmd (page_size page_number memory_type : Nat) : List Char :=
  [Char.ofNat 48, Char.ofNat 57] ++ hexPad 2 page_size ++ hexPad 4 page_number ++
    hexPad 2 memory_type

/-- _read_memory_page: the command it sends, and its outcome on the raw
bytes the device answers with: fewer than the expected bytes within the
deadline is a timeout; otherwise split payload from CRC and verify. -/
def readMemoryPageFull (page_size page_number memory_type : Nat)
    (received : List Nat) : List Char × Except String (List Nat) :=
  (readPageCmd page_size page_number memory_type,
   if received.length < expectedBytes page_size memory_type then
     Except.error "Timeout waiting for memory data"
   else readMemoryPageCheck page_size memory_type received)

/-- One observable step of a bulk read: a page-read command on the wire, or
a progress callback invocation. -/
inductive ReadEvent where
  | read (cmd : List Char)
  | progress (done total : Nat)
deriving DecidableEq

/-- The page loop of _read_flash_memory / _read_eeprom_memory: read each
page in ascending page order, append its payload to the accumulated buffer,
and report progress (pages done, total pages) after every page. The device's
raw reply for page p is oracle p. -/
def readPagesLoop (page_size memory_type total_pages : Nat)
    (oracle : Nat → List Nat) :
    Nat → Nat → List ReadEvent × Except String (List Nat)
  | 0, _ => ([], Except.ok [])
  | remaining + 1, pageNum =>
    match readMemoryPageFull page_size pageNum memory_type (oracle pageNum) with
    | (cmd, Except.error e) => ([ReadEvent.read cmd], Except.error e)
    | (cmd, Except.ok page_data) =>
      let r := readPagesLoop page_size memory_type total_pages oracle
        remaining (pageNum + 1)
      (ReadEvent.read cmd :: ReadEvent.progress (pageNum + 1) total_pages :: r.1,
        r.2.map (fun rest => page_data ++ rest))

/-- _read_flash_memory: page count is flash_total_size / (flash_page_size*2)
(page size in words), pages 0 .. count-1 are read in order with an initial
progress (0, total) callback, and the accumulated byte buffer (the ok value)
is what is handed to the Intel HEX serializer. -/
def readFlashMemory (flash_page_size flash_total_size : Nat)
    (oracle : Nat → List Nat) : List ReadEvent × Except String (List Nat) :=
  let total_pages := flash_total_size / (flash_page_size * 2)
  let r := readPagesLoop flash_page_size 1 total_pages oracle total_pages 0
  (ReadEvent.progress 0 total_pages :: r.1, r.2)

theorem readPagesLoop_ok (page_size total_pages : Nat) (oracle : Nat → List Nat) :
    ∀ (remaining start : Nat),
    (∀ p, start ≤ p → p < start + remaining →
      (oracle p).length = expectedBytes page_size 1 ∧
      crc16 ((oracle p).take (memDataBytes page_size 1)) =
        fromBytesLE ((oracle p).drop (memDataBytes page_size 1))) →
    readPagesLoop page_size 1 total_pages oracle remaining start =
      ((List.range' start remaining).flatMap (fun p =>
        [ReadEvent.read (readPageCmd page_size p 1),
         ReadEvent.progress (p + 1) total_pages]),
       Except.ok ((List.range' start remaining).flatMap
         (fun p => (oracle p).take (memDataBytes page_size 1)))) := by
  intro remaining
  induction remaining with
  | zero => intro start _; rfl
  | succ n ih =>
    intro start h
    obtain ⟨hlen, hcrc⟩ := h start (le_refl _) (by omega)
    have hdrop : ((oracle start).drop (memDataBytes page_size 1)).take 2 =
        (oracle start).drop (memDataBytes page_size 1) := by
      apply List.take_of_length_le
      simp only [List.length_drop]
      have : (oracle start).length = memDataBytes page_size 1 + 2 := hlen
      omega
    have hcheck : readMemoryPageCheck page_size 1 (oracle start) =
        Except.ok ((oracle start).take (memDataBytes page_size 1)) := by
      rw [readMemoryPageCheck_eq, hdrop, if_neg (fun hn => hn hcrc.symm)]
    have hfull : readMemoryPageFull page_size start 1 (oracle start) =
        (readPageCmd page_size start 1,
          Except.ok ((oracle start).take (memDataBytes page_size 1))) := by
      rw [readMemoryPageFull, hcheck]
      have : ¬ (oracle start).length < expectedBytes page_size 1 := by omega
      rw [if_neg this]
    show (match readMemoryPageFull page_size start 1 (oracle start) with
      | (cmd, Except.error e) => ([ReadEvent.read cmd], Except.error e)
      | (cmd, Except.ok page_data) =>
        let r := readPagesLoop page_size 1 total_pages oracle n (start + 1)
        (ReadEvent.read cmd :: ReadEvent.progress (start + 1) total_pages :: r.1,
          r.2.map (fun rest => page_data ++ rest))) = _
    rw [hfull, ih (start + 1) (fun p hp1 hp2 => h p (by omega) (by omega))]
    simp only [List.range'_succ, List.flatMap_cons, Except.map]
    rfl

/-- C7: a bulk flash read performs exactly total_size / (page_size*2) page
reads, in ascending page order from page 0, reporting progress after every
page (after an initial (0, total) report), and the buffer handed to the HEX
serializer is the concatenation of the page payloads in that order;
for chip ATMEGA328(P) the page count is exactly 256. -/
theorem readFlashMemory_spec (flash_page_size flash_total_size : Nat)
    (oracle : Nat → List Nat)
    (h : ∀ p, p < flash_total_size / (flash_page_size * 2) →
      (oracle p).length = expectedBytes flash_page_size 1 ∧
      crc16 ((oracle p).take (memDataBytes flash_page_size 1)) =
        fromBytesLE ((oracle p).drop (memDataBytes flash_page_size 1))) :
    readFlashMemory flash_page_size flash_total_size oracle =
      (ReadEvent.progress 0 (flash_total_size / (flash_page_size * 2)) ::
        (List.range (flash_total_size / (flash_page_size * 2))).flatMap (fun p =>
          [ReadEvent.read (readPageCmd flash_page_size p 1),
           ReadEvent.progress (p + 1) (flash_total_size / (flash_page_size * 2))]),
       Except.ok ((List.range (flash_total_size / (flash_page_size * 2))).flatMap
         (fun p => (oracle p).take (memDataBytes flash_page_size 1)))) ∧
    (chipProps "ATMEGA328(P)").map
      (fun c => c.flash_total_size / (c.flash_page_size * 2)) = some 256 := by
  constructor
  · rw [readFlashMemory]
    rw [readPagesLoop_ok flash_page_size
      (flash_total_size / (flash_page_size * 2)) oracle
      (flash_total_size / (flash_page_size * 2)) 0
      (fun p hp1 hp2 => h p (by omega))]
    rw [List.range_eq_range']
  · decide

/-- Concrete instance of readFlashMemory_spec: flash of 4 bytes with 1-word
pages gives two page reads of two payload bytes each. -/
theorem readFlashMemory_spec_witness :
    (∀ p, p < 4 / (1 * 2) →
      (((fun _ => [0, 0, 0, 0]) : Nat → List Nat) p).length = expectedBytes 1 1 ∧
      crc16 ((((fun _ => [0, 0, 0, 0]) : Nat → List Nat) p).take (memDataBytes 1 1)) =
        fromBytesLE ((((fun _ => [0, 0, 0, 0]) : Nat → List Nat) p).drop
          (memDataBytes 1 1))) ∧
    (readFlashMemory 1 4 (fun _ => [0, 0, 0, 0]) =
      (ReadEvent.progress 0 (4 / (1 * 2)) ::
        (List.range (4 / (1 * 2))).flatMap (fun p =>
          [ReadEvent.read (readPageCmd 1 p 1),
           ReadEvent.progress (p + 1) (4 / (1 * 2))]),
       Except.ok ((List.range (4 / (1 * 2))).flatMap
         (fun p => (((fun _ => [0, 0, 0, 0]) : Nat → List Nat) p).take
           (memDataBytes 1 1)))) ∧
      (chipProps "ATMEGA328(P)").map
        (fun c => c.flash_total_size / (c.flash_page_size * 2)) = some 256) :=
  ⟨by decide, readFlashMemory_spec 1 4 (fun _ => [0, 0, 0, 0]) (by decide)⟩

/-- Characters stripped by Python str.strip(): space, tab, LF, VT, FF, CR. -/
def isSpaceChar (c : Char) : Bool :=
  c.toNat = 32 || (9 ≤ c.toNat && c.toNat ≤ 13)

/-- Python str.strip(): drop whitespace from both ends. -/
def stripChars (l : List Char) : List Char :=
  ((l.dropWhile isSpaceChar).reverse.dropWhile isSpaceChar).reverse

/-- bytes.fromhex on a valid even-length hex string: decode consecutive
digit pairs. -/
def hexPairs : List Char → List Nat
  | a :: b :: rest => (hexDigitVal a * 16 + hexDigitVal b) :: hexPairs rest
  | _ => []

/-- The dict-update loop of the data-record case of _parse_intel_hex:
memory[base + index] = value for each data byte in order. -/
def updMem : List (Nat × Nat) → Nat → List Nat → List (Nat × Nat)
  | mem, _, [] => mem
  | mem, base, b :: bs => updMem (assocUpd mem base b) (base + 1) bs

/-- Classification of one parsed Intel HEX line. -/
inductive HexRecord where
  | blank
  | eof
  | ignored
  | dataRec (addr : Nat) (bytes : List Nat)
  | extLinear (value : Nat)
  | extSegment (value : Nat)
deriving DecidableEq

/-- One stripped line of _parse_intel_hex: require the leading colon, decode
byte count / address / record type / data / checksum (the hex-digit
validity test models the ValueError a Python int() or bytes.fromhex raises
on a non-hex digit), check the declared length and the two's-complement
checksum, and classify the record. Error messages summarize the raises of
the source (which also interpolate the line number). -/
def parseLineStripped : List Char → Except String HexRecord
  | [] => Except.ok HexRecord.blank
  | c :: raw =>
    if c ≠ Char.ofNat 58 then Except.error "Invalid HEX line: missing colon"
    else if raw.length < 10 then Except.error "Invalid HEX line: too short"
    else if ¬ (raw.all isHexDigitChar = true) then
      Except.error "Invalid HEX line: non-hexadecimal digit"
    else
      let byte_count := hexDecode (raw.take 2)
      let addr := hexDecode ((raw.drop 2).take 4)
      let record_type := hexDecode ((raw.drop 6).take 2)
      if raw.length ≠ 8 + byte_count * 2 + 2 then
        Except.error "Invalid HEX line: length mismatch"
      else
        let data_str := (raw.drop 8).take (byte_count * 2)
        let checksum := hexDecode ((raw.drop (8 + byte_count * 2)).take 2)
        let data_bytes := hexPairs data_str
        let calcCk := (256 - ((byte_count + addr / 256 % 256 + addr % 256 +
          record_type + data_bytes.sum) % 256)) % 256
        if calcCk ≠ checksum then Except.error "HEX checksum error"
        else
          match record_type with
          | 0 => Except.ok (HexRecord.dataRec addr data_bytes)
          | 1 => Except.ok HexRecord.eof
          | 4 =>
            if byte_count ≠ 2 then
              Except.error "Invalid extended linear address record"
            else Except.ok (HexRecord.extLinear (hexDecode data_str))
          | 2 =>
            if byte_count ≠ 2 then
              Except.error "Invalid extended segment address record"
            else Except.ok (HexRecord.extSegment (hexDecode data_str))
          | _ => Except.ok HexRecord.ignored

/-- A line of _parse_intel_hex is its stripped text classified. -/
def parseLine (line : List Char) : Except String HexRecord :=
  parseLineStripped (stripChars line)

/-- The line loop of _parse_intel_hex: thread the upper address base and the
memory map; a data record writes its bytes at upper + addr, an end-of-file
record stops parsing, extended records rebase upper, other types are
skipped. -/
def parseHexLines : List (List Char) → Nat → List (Nat × Nat) →
    Except String (List (Nat × Nat))
  | [], _, memory => Except.ok memory
  | line :: rest, upper, memory =>
    match parseLine line with
    | Except.error e => Except.error e
    | Except.ok HexRecord.blank => parseHexLines rest upper memory
    | Except.ok HexRecord.eof => Except.ok memory
    | Except.ok (HexRecord.dataRec addr bytes) =>
      parseHexLines rest upper (updMem memory (upper + addr) bytes)
    | Except.ok (HexRecord.extLinear v) => parseHexLines rest (v * 65536) memory
    | Except.ok (HexRecord.extSegment v) => parseHexLines rest (v * 16) memory
    | Except.ok HexRecord.ignored => parseHexLines rest upper memory

/-- _parse_intel_hex over the stripped lines of the file, as an address to
byte association map in insertion order. -/
def parseIntelHex (lines : List (List Char)) : Except String (List (Nat × Nat)) :=
  parseHexLines lines 0 []

/-- The two's-complement record checksum shared by both directions:
low byte of the negated sum of count, address halves, type and data. -/
def recordChecksum (byte_count addr record_type dataSum : Nat) : Nat :=
  (256 - ((byte_count + addr / 256 % 256 + addr % 256 + record_type + dataSum)
    % 256)) % 256

/-- One data record line of _write_intel_hex for the chunk at the given
absolute offset: colon, byte count, 16-bit address, type 00, data in hex,
checksum. -/
def dataRecordLine (offset : Nat) (chunk : List Nat) : List Char :=
  [Char.ofNat 58] ++ hexPad 2 chunk.length ++ hexPad 4 (offset % 65536) ++
    hexPad 2 0 ++ chunk.flatMap (fun b => hexPad 2 b) ++
    hexPad 2 (recordChecksum chunk.length (offset % 65536) 0 chunk.sum)

/-- The extended linear address record of _write_intel_hex
(:02000004 value checksum). -/
def extLine (value : Nat) : List Char :=
  [Char.ofNat 58] ++ hexPad 2 2 ++ hexPad 4 0 ++ hexPad 2 4 ++ hexPad 4 value ++
    hexPad 2 (recordChecksum 2 0 4 (value / 256 % 256 + value % 256))

/-- The fixed end-of-file record of _write_intel_hex. -/
def eofLine : List Char :=
  ":00000001FF".toList

/-- The chunk loop of _write_intel_hex: 16 bytes per data record; whenever
the upper 16 address bits differ from the last emitted extended address, an
extended linear address record is emitted first. Fuel-driven (one unit per
chunk, data.length + 1 always suffices). -/
def writeHexLoop : Nat → Nat → Nat → List Nat → List (List Char)
  | 0, _, _, _ => []
  | fuel + 1, offset, extended, data =>
    if data = [] then []
    else
      let current_extended := offset / 65536 % 65536
      let chunk := data.take 16
      let rest := data.drop 16
      if current_extended ≠ extended then
        extLine current_extended :: dataRecordLine offset chunk ::
          writeHexLoop fuel (offset + 16) current_extended rest
      else
        dataRecordLine offset chunk :: writeHexLoop fuel (offset + 16) extended rest

/-- _write_intel_hex: the emitted lines for a byte buffer starting at
address 0 (initial extended address 0), terminated by the end-of-file
record. -/
def writeIntelHex (data : List Nat) : List (List Char) :=
  writeHexLoop (data.length + 1) 0 0 data ++ [eofLine]

theorem hexDigitVal_hexDigitChar : ∀ d < 16, hexDigitVal (hexDigitChar d) = d := by
  decide

theorem isHexDigitChar_hexDigitChar : ∀ d < 16,
    isHexDigitChar (hexDigitChar d) = true := by
  decide

theorem hexDigits_all_hex : ∀ n, ∀ c ∈ hexDigits n, isHexDigitChar c = true := by
  intro n
  induction n using Nat.strong_induction_on with
  | _ n ih =>
    by_cases h : n < 16
    · rw [hexDigits_lt h]
      intro c hc
      rw [List.mem_singleton] at hc
      subst hc
      exact isHexDigitChar_hexDigitChar n h
    · rw [hexDigits_ge (by omega)]
      intro c hc
      rcases List.mem_append.mp hc with hc | hc
      · exact ih (n / 16) (Nat.div_lt_self (by omega) (by omega)) c hc
      · rw [List.mem_singleton] at hc
        subst hc
        exact isHexDigitChar_hexDigitChar _ (Nat.mod_lt _ (by omega))

theorem hexPad_all_hex (w n : Nat) : ∀ c ∈ hexPad w n, isHexDigitChar c = true := by
  intro c hc
  rcases List.mem_append.mp hc with hc | hc
  · rw [List.eq_of_mem_replicate hc]
    decide
  · exact hexDigits_all_hex n c hc

theorem hexDecode_foldl : ∀ (l : List Char) (a : Nat),
    l.foldl (fun x c => x * 16 + hexDigitVal c) a = a * 16 ^ l.length + hexDecode l := by
  intro l
  induction l with
  | nil => intro a; simp [hexDecode]
  | cons c t ih =>
    intro a
    show t.foldl _ (a * 16 + hexDigitVal c) = a * 16 ^ (c :: t).length + hexDecode (c :: t)
    rw [ih]
    have h2 : hexDecode (c :: t) = hexDigitVal c * 16 ^ t.length + hexDecode t := by
      show t.foldl _ (0 * 16 + hexDigitVal c) = _
      rw [ih]
      ring
    rw [h2, List.length_cons]
    ring

theorem hexDecode_cons (c : Char) (t : List Char) :
    hexDecode (c :: t) = hexDigitVal c * 16 ^ t.length + hexDecode t := by
  show t.foldl _ (0 * 16 + hexDigitVal c) = _
  rw [hexDecode_foldl]
  ring

theorem hexDecode_append (l1 l2 : List Char) :
    hexDecode (l1 ++ l2) = hexDecode l1 * 16 ^ l2.length + hexDecode l2 := by
  show (l1 ++ l2).foldl _ 0 = _
  rw [List.foldl_append]
  exact hexDecode_foldl l2 _

theorem hexDecode_hexDigits : ∀ n, hexDecode (hexDigits n) = n := by
  intro n
  induction n using Nat.strong_induction_on with
  | _ n ih =>
    by_cases h : n < 16
    · rw [hexDigits_lt h, hexDecode_cons]
      show hexDigitVal (hexDigitChar n) * 16 ^ 0 + hexDecode [] = n
      rw [hexDigitVal_hexDigitChar n h]
      simp [hexDecode]
    · rw [hexDigits_ge (by omega), hexDecode_append, hexDecode_cons]
      rw [ih (n / 16) (Nat.div_lt_self (by omega) (by omega)),
        hexDigitVal_hexDigitChar _ (Nat.mod_lt _ (by omega))]
      show n / 16 * 16 ^ 1 + (n % 16 * 16 ^ 0 + hexDecode []) = n
      simp [hexDecode]
      omega

theorem hexDecode_replicate_zero (k : Nat) (l : List Char) :
    hexDecode (List.replicate k (Char.ofNat 48) ++ l) = hexDecode l := by
  rw [hexDecode_append]
  have hz : hexDecode (List.replicate k (Char.ofNat 48)) = 0 := by
    induction k with
    | zero => rfl
    | succ m ih =>
      rw [List.replicate_succ, hexDecode_cons, ih]
      have : hexDigitVal (Char.ofNat 48) = 0 := by decide
      rw [this]
      ring
  rw [hz]
  ring

theorem hexDecode_hexPad (w n : Nat) : hexDecode (hexPad w n) = n := by
  rw [hexPad, hexDecode_replicate_zero, hexDecode_hexDigits]

theorem hexDigits_length_le : ∀ n w, 1 ≤ w → n < 16 ^ w →
    (hexDigits n).length ≤ w := by
  intro n
  induction n using Nat.strong_induction_on with
  | _ n ih =>
    intro w hw hn
    by_cases h : n < 16
    · rw [hexDigits_lt h]
      simpa using hw
    · rw [hexDigits_ge (by omega), List.length_append]
      have hw2 : 2 ≤ w := by
        by_contra hc
        have hweq : w = 1 := by omega
        subst hweq
        rw [pow_one] at hn
        omega
      have hdivlt : n / 16 < 16 ^ (w - 1) := by
        apply Nat.div_lt_of_lt_mul
        have : 16 ^ (w - 1) * 16 = 16 ^ w := by
          rw [← pow_succ]
          congr 1
          omega
        omega
      have := ih (n / 16) (Nat.div_lt_self (by omega) (by omega)) (w - 1)
        (by omega) hdivlt
      simp only [List.length_singleton]
      omega

theorem hexPad_length (w n : Nat) (hw : 1 ≤ w) (hn : n < 16 ^ w) :
    (hexPad w n).length = w := by
  rw [hexPad, List.length_append, List.length_replicate]
  have := hexDigits_length_le n w hw hn
  omega

theorem take_len_append {α : Type} (l1 l2 : List α) (k : Nat)
    (h : l1.length = k) : (l1 ++ l2).take k = l1 := by
  subst h
  exact List.take_left l1 l2

theorem drop_len_append {α : Type} (l1 l2 : List α) (k : Nat)
    (h : l1.length = k) : (l1 ++ l2).drop k = l2 := by
  subst h
  exact List.drop_left l1 l2

theorem hexPad_two_eq (b : Nat) (hb : b < 256) :
    hexPad 2 b = [hexDigitChar (b / 16), hexDigitChar (b % 16)] := by
  by_cases h : b < 16
  · rw [hexPad, hexDigits_lt h]
    have h1 : b / 16 = 0 := by omega
    have h2 : b % 16 = b := by omega
    rw [h1, h2]
    rfl
  · rw [hexPad, hexDigits_ge (by omega), hexDigits_lt (show b / 16 < 16 by omega)]
    rfl

theorem hexPairs_hexPad_flatMap : ∀ (chunk : List Nat), (∀ b ∈ chunk, b < 256) →
    hexPairs (chunk.flatMap (fun b => hexPad 2 b)) = chunk := by
  intro chunk
  induction chunk with
  | nil => intro _; rfl
  | cons b bs ih =>
    intro h
    rw [List.flatMap_cons, hexPad_two_eq b (h b (List.mem_cons_self _ _))]
    show (hexDigitVal (hexDigitChar (b / 16)) * 16 +
        hexDigitVal (hexDigitChar (b % 16))) ::
      hexPairs (bs.flatMap (fun x => hexPad 2 x)) = b :: bs
    rw [ih (fun x hx => h x (List.mem_cons_of_mem _ hx)),
      hexDigitVal_hexDigitChar _ (show b / 16 < 16 by
        have := h b (List.mem_cons_self _ _); omega),
      hexDigitVal_hexDigitChar _ (Nat.mod_lt _ (by omega))]
    congr 1
    omega

theorem flatMap_hexPad_length (chunk : List Nat) (h : ∀ b ∈ chunk, b < 256) :
    (chunk.flatMap (fun b => hexPad 2 b)).length = chunk.length * 2 := by
  induction chunk with
  | nil => rfl
  | cons b bs ih =>
    rw [List.flatMap_cons, List.length_append,
      hexPad_length 2 b (by omega) (h b (List.mem_cons_self _ _)),
      ih (fun x hx => h x (List.mem_cons_of_mem _ hx)), List.length_cons]
    ring

theorem flatMap_hexPad_all_hex (chunk : List Nat) :
    ∀ c ∈ chunk.flatMap (fun b => hexPad 2 b), isHexDigitChar c = true := by
  intro c hc
  obtain ⟨b, _, hcb⟩ := List.mem_flatMap.mp hc
  exact hexPad_all_hex 2 b c hcb

theorem not_space_of_hex {c : Char} (h : isHexDigitChar c = true) :
    isSpaceChar c = false := by
  simp only [isHexDigitChar, Bool.or_eq_true, Bool.and_eq_true,
    decide_eq_true_eq] at h
  simp only [isSpaceChar, Bool.or_eq_false_iff, Bool.and_eq_false_iff,
    decide_eq_false_iff_not]
  omega

theorem dropWhile_eq_self_of_all {p : Char → Bool} :
    ∀ (l : List Char), (∀ c ∈ l, p c = false) → l.dropWhile p = l := by
  intro l h
  cases l with
  | nil => rfl
  | cons a t =>
    rw [List.dropWhile_cons, h a (List.mem_cons_self _ _)]
    simp

theorem stripChars_eq_self (l : List Char)
    (h : ∀ c ∈ l, isSpaceChar c = false) : stripChars l = l := by
  rw [stripChars, dropWhile_eq_self_of_all l h,
    dropWhile_eq_self_of_all l.reverse (fun c hc => h c (List.mem_reverse.mp hc)),
    List.reverse_reverse]

theorem parseLine_generic (bc addr rt ck : Nat) (ds : List Char)
    (hbc : bc < 256) (haddr : addr < 65536) (hrt : rt < 256) (hck : ck < 256)
    (hds_len : ds.length = bc * 2)
    (hds_hex : ∀ c ∈ ds, isHexDigitChar c = true) :
    parseLine ([Char.ofNat 58] ++ hexPad 2 bc ++ hexPad 4 addr ++ hexPad 2 rt ++
        ds ++ hexPad 2 ck) =
      (if recordChecksum bc addr rt (hexPairs ds).sum ≠ ck then
        Except.error "HEX checksum error"
      else
        match rt with
        | 0 => Except.ok (HexRecord.dataRec addr (hexPairs ds))
        | 1 => Except.ok HexRecord.eof
        | 4 =>
          if bc ≠ 2 then Except.error "Invalid extended linear address record"
          else Except.ok (HexRecord.extLinear (hexDecode ds))
        | 2 =>
          if bc ≠ 2 then Except.error "Invalid extended segment address record"
          else Except.ok (HexRecord.extSegment (hexDecode ds))
        | _ => Except.ok HexRecord.ignored) := by
  have hpow2 : (16 : Nat) ^ 2 = 256 := by norm_num
  have hpow4 : (16 : Nat) ^ 4 = 65536 := by norm_num
  have hA : (hexPad 2 bc).length = 2 :=
    hexPad_length 2 bc (by omega) (by rw [hpow2]; exact hbc)
  have hB : (hexPad 4 addr).length = 4 :=
    hexPad_length 4 addr (by omega) (by rw [hpow4]; exact haddr)
  have hC : (hexPad 2 rt).length = 2 :=
    hexPad_length 2 rt (by omega) (by rw [hpow2]; exact hrt)
  have hE : (hexPad 2 ck).length = 2 :=
    hexPad_length 2 ck (by omega) (by rw [hpow2]; exact hck)
  have hshape : [Char.ofNat 58] ++ hexPad 2 bc ++ hexPad 4 addr ++ hexPad 2 rt ++
      ds ++ hexPad 2 ck =
      Char.ofNat 58 :: (hexPad 2 bc ++ (hexPad 4 addr ++ (hexPad 2 rt ++
        (ds ++ hexPad 2 ck)))) := by
    simp [List.append_assoc]
  have hnospace : ∀ c ∈ Char.ofNat 58 :: (hexPad 2 bc ++ (hexPad 4 addr ++
      (hexPad 2 rt ++ (ds ++ hexPad 2 ck)))), isSpaceChar c = false := by
    intro c hc
    rcases List.mem_cons.mp hc with hc | hc
    · subst hc; decide
    · simp only [List.mem_append] at hc
      rcases hc with hc | hc | hc | hc | hc
      · exact not_space_of_hex (hexPad_all_hex 2 bc c hc)
      · exact not_space_of_hex (hexPad_all_hex 4 addr c hc)
      · exact not_space_of_hex (hexPad_all_hex 2 rt c hc)
      · exact not_space_of_hex (hds_hex c hc)
      · exact not_space_of_hex (hexPad_all_hex 2 ck c hc)
  rw [parseLine, hshape, stripChars_eq_self _ hnospace]
  have hrawlen : (hexPad 2 bc ++ (hexPad 4 addr ++ (hexPad 2 rt ++
      (ds ++ hexPad 2 ck)))).length = 10 + bc * 2 := by
    simp only [List.length_append, hA, hB, hC, hE, hds_len]
    omega
  have hallhex : (hexPad 2 bc ++ (hexPad 4 addr ++ (hexPad 2 rt ++
      (ds ++ hexPad 2 ck)))).all isHexDigitChar = true := by
    rw [List.all_eq_true]
    intro c hc
    simp only [List.mem_append] at hc
    rcases hc with hc | hc | hc | hc | hc
    · exact hexPad_all_hex 2 bc c hc
    · exact hexPad_all_hex 4 addr c hc
    · exact hexPad_all_hex 2 rt c hc
    · exact hds_hex c hc
    · exact hexPad_all_hex 2 ck c hc
  have ht2 : (hexPad 2 bc ++ (hexPad 4 addr ++ (hexPad 2 rt ++
      (ds ++ hexPad 2 ck)))).take 2 = hexPad 2 bc :=
    take_len_append _ _ 2 hA
  have hd2 : (hexPad 2 bc ++ (hexPad 4 addr ++ (hexPad 2 rt ++
      (ds ++ hexPad 2 ck)))).drop 2 =
      hexPad 4 addr ++ (hexPad 2 rt ++ (ds ++ hexPad 2 ck)) :=
    drop_len_append _ _ 2 hA
  have ht4 : ((hexPad 2 bc ++ (hexPad 4 addr ++ (hexPad 2 rt ++
      (ds ++ hexPad 2 ck)))).drop 2).take 4 = hexPad 4 addr := by
    rw [hd2]; exact take_len_append _ _ 4 hB
  have hd6 : (hexPad 2 bc ++ (hexPad 4 addr ++ (hexPad 2 rt ++
      (ds ++ hexPad 2 ck)))).drop 6 = hexPad 2 rt ++ (ds ++ hexPad 2 ck) := by
    have h1 : (hexPad 2 bc ++ (hexPad 4 addr ++ (hexPad 2 rt ++
        (ds ++ hexPad 2 ck)))).drop 6 =
        List.drop 4 (List.drop 2 (hexPad 2 bc ++ (hexPad 4 addr ++
          (hexPad 2 rt ++ (ds ++ hexPad 2 ck))))) := by
      rw [List.drop_drop]
    rw [h1, hd2]
    exact drop_len_append _ _ 4 hB
  have ht6 : ((hexPad 2 bc ++ (hexPad 4 addr ++ (hexPad 2 rt ++
      (ds ++ hexPad 2 ck)))).drop 6).take 2 = hexPad 2 rt := by
    rw [hd6]; exact take_len_append _ _ 2 hC
  have hd8 : (hexPad 2 bc ++ (hexPad 4 addr ++ (hexPad 2 rt ++
      (ds ++ hexPad 2 ck)))).drop 8 = ds ++ hexPad 2 ck := by
    have h1 : (hexPad 2 bc ++ (hexPad 4 addr ++ (hexPad 2 rt ++
        (ds ++ hexPad 2 ck)))).drop 8 =
        List.drop 2 (List.drop 6 (hexPad 2 bc ++ (hexPad 4 addr ++
          (hexPad 2 rt ++ (ds ++ hexPad 2 ck))))) := by
      rw [List.drop_drop]
    rw [h1, hd6]
    exact drop_len_append _ _ 2 hC
  have htds : ((hexPad 2 bc ++ (hexPad 4 addr ++ (hexPad 2 rt ++
      (ds ++ hexPad 2 ck)))).drop 8).take (bc * 2) = ds := by
    rw [hd8]; exact take_len_append _ _ _ hds_len
  have hdck : (hexPad 2 bc ++ (hexPad 4 addr ++ (hexPad 2 rt ++
      (ds ++ hexPad 2 ck)))).drop (8 + bc * 2) = hexPad 2 ck := by
    have h1 := List.drop_drop (bc * 2) 8 (hexPad 2 bc ++ (hexPad 4 addr ++
      (hexPad 2 rt ++ (ds ++ hexPad 2 ck))))
    rw [hd8, drop_len_append ds (hexPad 2 ck) (bc * 2) hds_len] at h1
    exact h1.symm
  have htck : ((hexPad 2 bc ++ (hexPad 4 addr ++ (hexPad 2 rt ++
      (ds ++ hexPad 2 ck)))).drop (8 + bc * 2)).take 2 = hexPad 2 ck := by
    rw [hdck]
    exact List.take_of_length_le (le_of_eq hE)
  simp only [parseLineStripped]
  rw [if_neg (show ¬ Char.ofNat 58 ≠ Char.ofNat 58 from fun h => h rfl)]
  rw [if_neg (show ¬ (hexPad 2 bc ++ (hexPad 4 addr ++ (hexPad 2 rt ++
    (ds ++ hexPad 2 ck)))).length < 10 by rw [hrawlen]; omega)]
  rw [if_neg (not_not_intro hallhex)]
  simp only [ht2, ht4, ht6, hexDecode_hexPad]
  rw [if_neg (not_not_intro (by rw [hrawlen]; omega :
    (hexPad 2 bc ++ (hexPad 4 addr ++ (hexPad 2 rt ++
      (ds ++ hexPad 2 ck)))).length = 8 + bc * 2 + 2))]
  simp only [htds, htck, hexDecode_hexPad]
  rfl

theorem exists_four {α : Type} (l : List α) (h : l.length = 4) :
    ∃ a b c d, l = [a, b, c, d] := by
  cases l with
  | nil => simp at h
  | cons a l1 =>
    cases l1 with
    | nil => simp at h
    | cons b l2 =>
      cases l2 with
      | nil => simp at h
      | cons c l3 =>
        cases l3 with
        | nil => simp at h
        | cons d l4 =>
          cases l4 with
          | nil => exact ⟨a, b, c, d, rfl⟩
          | cons e l5 => simp at h

theorem hexDigitVal_lt (c : Char) : hexDigitVal c < 16 := by
  rw [hexDigitVal]
  split_ifs <;> omega

theorem hexPairs_hexPad_four (v : Nat) (hv : v < 65536) :
    hexPairs (hexPad 4 v) = [v / 256, v % 256] := by
  have hlen : (hexPad 4 v).length = 4 :=
    hexPad_length 4 v (by omega) (by norm_num; omega)
  obtain ⟨a, b, c, d, h⟩ := exists_four (hexPad 4 v) hlen
  have hdec := hexDecode_hexPad 4 v
  rw [h] at hdec
  have hdec4 : hexDecode [a, b, c, d] =
      (((0 * 16 + hexDigitVal a) * 16 + hexDigitVal b) * 16 + hexDigitVal c) *
        16 + hexDigitVal d := rfl
  have ha := hexDigitVal_lt a
  have hb := hexDigitVal_lt b
  have hc := hexDigitVal_lt c
  have hd := hexDigitVal_lt d
  rw [h]
  show (hexDigitVal a * 16 + hexDigitVal b) ::
    (hexDigitVal c * 16 + hexDigitVal d) :: hexPairs [] = [v / 256, v % 256]
  have e1 : hexDigitVal a * 16 + hexDigitVal b = v / 256 := by omega
  have e2 : hexDigitVal c * 16 + hexDigitVal d = v % 256 := by omega
  rw [e1, e2]
  rfl

theorem parseLine_dataRecordLine (offset : Nat) (chunk : List Nat)
    (hlen : chunk.length ≤ 16) (hbytes : ∀ b ∈ chunk, b < 256) :
    parseLine (dataRecordLine offset chunk) =
      Except.ok (HexRecord.dataRec (offset % 65536) chunk) := by
  rw [dataRecordLine]
  rw [parseLine_generic chunk.length (offset % 65536) 0
    (recordChecksum chunk.length (offset % 65536) 0 chunk.sum)
    (chunk.flatMap (fun b => hexPad 2 b))
    (by omega) (Nat.mod_lt _ (by omega)) (by omega)
    (by rw [recordChecksum]; omega)
    (flatMap_hexPad_length chunk hbytes)
    (flatMap_hexPad_all_hex chunk)]
  rw [hexPairs_hexPad_flatMap chunk hbytes]
  rw [if_neg (fun hcontra => hcontra rfl)]

theorem parseLine_extLine (v : Nat) (hv : v < 65536) :
    parseLine (extLine v) = Except.ok (HexRecord.extLinear v) := by
  rw [extLine]
  rw [parseLine_generic 2 0 4 (recordChecksum 2 0 4 (v / 256 % 256 + v % 256))
    (hexPad 4 v) (by omega) (by omega) (by omega)
    (by rw [recordChecksum]; omega)
    (by rw [hexPad_length 4 v (by omega) (by norm_num; omega)])
    (hexPad_all_hex 4 v)]
  rw [hexPairs_hexPad_four v hv]
  have hsum : ([v / 256, v % 256] : List Nat).sum = v / 256 % 256 + v % 256 := by
    have : v / 256 % 256 = v / 256 := by omega
    simp [this]
  rw [hsum, if_neg (fun hcontra => hcontra rfl)]
  show (if (2 : Nat) ≠ 2 then Except.error "Invalid extended linear address record"
    else Except.ok (HexRecord.extLinear (hexDecode (hexPad 4 v)))) = _
  rw [if_neg (fun hcontra => hcontra rfl), hexDecode_hexPad]

theorem parseLine_eofLine : parseLine eofLine = Except.ok HexRecord.eof := by
  rfl

theorem assocUpd_fresh {α : Type} : ∀ (m : List (Nat × α)) (k : Nat) (v : α),
    (∀ p ∈ m, p.1 ≠ k) → assocUpd m k v = m ++ [(k, v)] := by
  intro m
  induction m with
  | nil => intro k v _; rfl
  | cons p rest ih =>
    intro k v h
    obtain ⟨k0, v0⟩ := p
    show (if k0 = k then (k0, v) :: rest else (k0, v0) :: assocUpd rest k v) = _
    rw [if_neg (h (k0, v0) (List.mem_cons_self _ _)),
      ih k v (fun q hq => h q (List.mem_cons_of_mem _ hq)), List.cons_append]

theorem updMem_append : ∀ (bs : List Nat) (m : List (Nat × Nat)) (base : Nat),
    (∀ p ∈ m, p.1 < base) →
    updMem m base bs = m ++ (List.range' base bs.length).zip bs := by
  intro bs
  induction bs with
  | nil =>
    intro m base _
    simp [updMem]
  | cons b rest ih =>
    intro m base h
    show updMem (assocUpd m base b) (base + 1) rest = _
    rw [assocUpd_fresh m base b (fun p hp => Nat.ne_of_lt (h p hp))]
    rw [ih (m ++ [(base, b)]) (base + 1) (fun p hp => by
      rcases List.mem_append.mp hp with hp | hp
      · exact Nat.lt_succ_of_lt (h p hp)
      · rw [List.mem_singleton] at hp
        subst hp
        omega)]
    rw [List.append_assoc, List.length_cons, List.range'_succ]
    rfl

theorem parse_writeHexLoop : ∀ (fuel offset extended : Nat) (data : List Nat)
    (mem : List (Nat × Nat)) (rest : List (List Char)),
    data.length < fuel →
    (∀ b ∈ data, b < 256) →
    (data ≠ [] → offset + data.length ≤ 4294967280) →
    (∀ p ∈ mem, p.1 < offset) →
    ∃ upper2,
      parseHexLines (writeHexLoop fuel offset extended data ++ rest)
          (extended * 65536) mem =
        parseHexLines rest upper2
          (mem ++ (List.range' offset data.length).zip data) := by
  intro fuel
  induction fuel with
  | zero =>
    intro offset extended data mem rest hfuel
    omega
  | succ n ih =>
    intro offset extended data mem rest hfuel hbytes hbound hfresh
    by_cases hdata : data = []
    · subst hdata
      refine ⟨extended * 65536, ?_⟩
      simp [writeHexLoop]
    · have hlen1 : 1 ≤ data.length := by
        cases data with
        | nil => exact absurd rfl hdata
        | cons x xs => simp
      have hofflt : offset < 4294967296 := by
        have := hbound hdata
        omega
      have hdivlt : offset / 65536 < 65536 := by omega
      have hcurmod : offset / 65536 % 65536 = offset / 65536 := by omega
      have hchunklen : (data.take 16).length ≤ 16 := by
        simp [List.length_take]
      have hchunkbytes : ∀ b ∈ data.take 16, b < 256 :=
        fun b hb => hbytes b (List.take_subset 16 data hb)
      have hdroplen : (data.drop 16).length = data.length - 16 := by
        simp [List.length_drop]
      have hrestbytes : ∀ b ∈ data.drop 16, b < 256 :=
        fun b hb => hbytes b (List.drop_subset 16 data hb)
      have hrestbound : data.drop 16 ≠ [] →
          (offset + 16) + (data.drop 16).length ≤ 4294967280 := by
        intro hne
        have : data.length - 16 ≥ 1 := by
          by_contra hc
          apply hne
          apply List.eq_nil_of_length_eq_zero
          omega
        have := hbound hdata
        omega
      have hmemdata : updMem mem (offset / 65536 % 65536 * 65536 + offset % 65536)
          (data.take 16) = mem ++ (List.range' offset (data.take 16).length).zip
            (data.take 16) := by
        have hoffeq : offset / 65536 % 65536 * 65536 + offset % 65536 = offset := by
          omega
        rw [hoffeq]
        exact updMem_append (data.take 16) mem offset hfresh
      have hfresh2 : ∀ p ∈ mem ++ (List.range' offset (data.take 16).length).zip
          (data.take 16), p.1 < offset + 16 := by
        intro p hp
        rcases List.mem_append.mp hp with hp | hp
        · exact Nat.lt_add_right _ (hfresh p hp)
        · have hz := List.of_mem_zip hp
          have hmem := hz.1
          rw [List.mem_range'] at hmem
          obtain ⟨i, hi, hpeq⟩ := hmem
          omega
      have hziplen : (data.take 16).length = (List.range' offset
          (data.take 16).length).length := by
        rw [List.length_range']
      have hzipsplit : (List.range' offset data.length).zip data =
          (List.range' offset (data.take 16).length).zip (data.take 16) ++
            (List.range' (offset + 16) (data.drop 16).length).zip (data.drop 16) := by
        by_cases h16 : data.length ≤ 16
        · have hd0 : data.drop 16 = [] := by
            apply List.eq_nil_of_length_eq_zero
            omega
          have ht0 : data.take 16 = data := List.take_of_length_le h16
          rw [hd0, ht0]
          simp
        · have htlen : (data.take 16).length = 16 := by
            simp [List.length_take]
            omega
          conv_lhs => rw [show data = data.take 16 ++ data.drop 16 from
            (List.take_append_drop 16 data).symm]
          rw [List.length_append]
          rw [show List.range' offset ((data.take 16).length +
              (data.drop 16).length) =
            List.range' offset (data.take 16).length ++
              List.range' (offset + 16) (data.drop 16).length by
            rw [Nat.add_comm ((data.take 16).length) ((data.drop 16).length),
              ← List.range'_append offset (data.take 16).length
                (data.drop 16).length 1]
            rw [htlen]]
          exact List.zip_append (by rw [List.length_range'])
      show (∃ upper2, parseHexLines
        ((if data = [] then [] else
          if offset / 65536 % 65536 ≠ extended then
            extLine (offset / 65536 % 65536) :: dataRecordLine offset (data.take 16) ::
              writeHexLoop n (offset + 16) (offset / 65536 % 65536) (data.drop 16)
          else dataRecordLine offset (data.take 16) ::
              writeHexLoop n (offset + 16) extended (data.drop 16)) ++ rest)
          (extended * 65536) mem = _)
      rw [if_neg hdata]
      by_cases hcur : offset / 65536 % 65536 ≠ extended
      · rw [if_pos hcur]
        obtain ⟨upper2, hrec⟩ := ih (offset + 16) (offset / 65536 % 65536)
          (data.drop 16) (mem ++ (List.range' offset (data.take 16).length).zip
            (data.take 16)) rest (by omega) hrestbytes hrestbound hfresh2
        refine ⟨upper2, ?_⟩
        rw [List.cons_append, List.cons_append]
        show parseHexLines (extLine (offset / 65536 % 65536) ::
          (dataRecordLine offset (data.take 16) ::
            (writeHexLoop n (offset + 16) (offset / 65536 % 65536)
              (data.drop 16) ++ rest))) (extended * 65536) mem = _
        simp only [parseHexLines,
          parseLine_extLine (offset / 65536 % 65536) (by omega),
          parseLine_dataRecordLine offset (data.take 16) hchunklen hchunkbytes]
        rw [hmemdata, hrec, hzipsplit, List.append_assoc]
      · rw [if_neg hcur]
        push_neg at hcur
        obtain ⟨upper2, hrec⟩ := ih (offset + 16) extended
          (data.drop 16) (mem ++ (List.range' offset (data.take 16).length).zip
            (data.take 16)) rest (by omega) hrestbytes hrestbound hfresh2
        refine ⟨upper2, ?_⟩
        rw [List.cons_append]
        show parseHexLines (dataRecordLine offset (data.take 16) ::
          (writeHexLoop n (offset + 16) extended (data.drop 16) ++ rest))
          (extended * 65536) mem = _
        simp only [parseHexLines,
          parseLine_dataRecordLine offset (data.take 16) hchunklen hchunkbytes]
        have hmemdataneg : updMem mem (extended * 65536 + offset % 65536)
            (data.take 16) = mem ++ (List.range' offset
              (data.take 16).length).zip (data.take 16) := by
          rw [← hcur]
          exact hmemdata
        rw [hmemdataneg, hrec, hzipsplit, List.append_assoc]

/-- C6: lossless HEX round-trip. For every byte buffer the serializer
accepts (a dense map 0..n-1, here with n up to 2 to the 20th so every
address lies in the claimed range), parsing the serializer's output
reproduces exactly the map address to byte, including across 64KB extended
linear address records. -/
theorem intelHex_roundtrip (data : List Nat)
    (hlen : data.length ≤ 1048576) (hbytes : ∀ b ∈ data, b < 256) :
    parseIntelHex (writeIntelHex data) =
      Except.ok ((List.range data.length).zip data) := by
  obtain ⟨upper2, h⟩ := parse_writeHexLoop (data.length + 1) 0 0 data [] [eofLine]
    (by omega) hbytes (fun _ => by omega) (by intro p hp; simp at hp)
  simp only [Nat.zero_mul, List.nil_append] at h
  rw [parseIntelHex, writeIntelHex, h]
  simp only [parseHexLines, parseLine_eofLine]
  rw [List.range_eq_range']

/-- Concrete instance of intelHex_roundtrip on the buffer 01 02. -/
theorem intelHex_roundtrip_witness :
    (([1, 2] : List Nat).length ≤ 1048576 ∧ ∀ b ∈ ([1, 2] : List Nat), b < 256) ∧
    parseIntelHex (writeIntelHex [1, 2]) =
      Except.ok ((List.range ([1, 2] : List Nat).length).zip [1, 2]) :=
  ⟨⟨by decide, by decide⟩, intelHex_roundtrip [1, 2] (by decide) (by decide)⟩

/-- The HVPPCommand enumeration. -/
inductive HVPPCommand where
  | NONE
  | OPEN
  | READ_SIGNATURE
  | READ_FUSES
  | WRITE_LFUSE
  | WRITE_HFUSE
  | WRITE_EXT_FUSE
  | WRITE_LOCK_BYTE
  | CHIP_ERASE
  | READ_CALIBRATION_BYTE
  | READ_MEMORY
  | WRITE_MEMORY
  | LOG
  | END
deriving DecidableEq

/-- Python str.lower() on one ASCII character. -/
def lowerChar (c : Char) : Char :=
  if 65 ≤ c.toNat ∧ c.toNat ≤ 90 then Char.ofNat (c.toNat + 32) else c

/-- Python split on the first colon (maxsplit 1): none when no colon is
present (the one-part case the source rejects). -/
def splitColon : List Char → Option (List Char × List Char)
  | [] => none
  | c :: rest =>
    if c = Char.ofNat 58 then some ([], rest)
    else
      match splitColon rest with
      | none => none
      | some (a, b) => some (c :: a, b)

/-- The serial traffic of a bulk-read trace: the page-read commands
(progress callbacks are not wire traffic). -/
def wireOfReadEvents (l : List ReadEvent) : List WireEvent :=
  l.filterMap (fun e => match e with
    | ReadEvent.read cmd => some (WireEvent.text cmd)
    | ReadEvent.progress _ _ => none)

/-- _read_eeprom_memory: like the flash bulk read with the EEPROM geometry,
page size in bytes and memory type 0x02. -/
def readEepromMemory (eeprom_page_size eeprom_total_size : Nat)
    (oracle : Nat → List Nat) : List ReadEvent × Except String (List Nat) :=
  let total_pages := eeprom_total_size / eeprom_page_size
  let r := readPagesLoop eeprom_page_size 2 total_pages oracle total_pages 0
  (ReadEvent.progress 0 total_pages :: r.1, r.2)

/-- The message of each bulk-write raise, as surfaced to the caller. -/
def bulkErrMsg : BulkWriteErr → String
  | BulkWriteErr.noData => "HEX file contains no data"
  | BulkWriteErr.addrOutOfRange _ =>
    "HEX data contains address outside memory size"
  | BulkWriteErr.pageError m => m

/-- The environment of one programmer_communicate call: the session's chip,
the channel reply for a simple command (indexed by its expected response
length), the device's raw page-read replies, the parsed HEX file a bulk
write would use, and the firmware replies of each write segment. -/
structure CommEnv where
  chip : ChipProperties
  reply : Nat → List Char
  pageOracle : Nat → List Nat
  hexMemory : List (Nat × Nat)
  writeReplies : Nat → List Char × List Char

/-- _send_command: send the command code and data on the wire and read the
reply (expected_length 0 means wait for the terminator). -/
def sendCommandModel (portOpen : Bool) (codeData : List Char)
    (expected_length : Nat) (reply : Nat → List Char) :
    Except String (List WireEvent × List Char) :=
  (sendData portOpen codeData).map (fun evs => (evs, reply expected_length))

/-- programmer_communicate: dispatch on the command. Simple commands map to
their two-digit code with fixed expected response length; READ_MEMORY and
WRITE_MEMORY parse memory_type:filename parameters and run the bulk loops;
an unhandled command falls through every branch and returns the initial
empty result with no transport traffic. The result pairs the response
string with the wire trace; Except.error models the raises. -/
def programmerCommunicate (env : CommEnv) (portOpen : Bool) (cmd : HVPPCommand)
    (parameters : List Char) : Except String (List Char × List WireEvent) :=
  match cmd with
  | HVPPCommand.OPEN =>
    (sendCommandModel portOpen ("00".toList ++ env.chip.chip_id) 0
      env.reply).map (fun r => (r.2, r.1))
  | HVPPCommand.READ_SIGNATURE =>
    (sendCommandModel portOpen "01".toList 6 env.reply).map (fun r => (r.2, r.1))
  | HVPPCommand.READ_FUSES =>
    (sendCommandModel portOpen "02".toList 11 env.reply).map (fun r => (r.2, r.1))
  | HVPPCommand.WRITE_LFUSE =>
    (sendCommandModel portOpen ("03".toList ++ parameters) 0
      env.reply).map (fun r => (r.2, r.1))
  | HVPPCommand.WRITE_HFUSE =>
    (sendCommandModel portOpen ("04".toList ++ parameters) 0
      env.reply).map (fun r => (r.2, r.1))
  | HVPPCommand.WRITE_EXT_FUSE =>
    (sendCommandModel portOpen ("05".toList ++ parameters) 0
      env.reply).map (fun r => (r.2, r.1))
  | HVPPCommand.WRITE_LOCK_BYTE =>
    (sendCommandModel portOpen "06".toList 0 env.reply).map (fun r => (r.2, r.1))
  | HVPPCommand.CHIP_ERASE =>
    (sendCommandModel portOpen "07".toList 0 env.reply).map (fun r => (r.2, r.1))
  | HVPPCommand.READ_CALIBRATION_BYTE =>
    (sendCommandModel portOpen "08".toList 2 env.reply).map (fun r => (r.2, r.1))
  | HVPPCommand.READ_MEMORY =>
    match splitColon parameters with
    | none => Except.error "Invalid READ_MEMORY parameters"
    | some (memory_type, _filename) =>
      if memory_type.map lowerChar = "flash".toList then
        let r := readFlashMemory env.chip.flash_page_size
          env.chip.flash_total_size env.pageOracle
        match r.2 with
        | Except.error e => Except.error e
        | Except.ok _ => Except.ok ("0".toList, wireOfReadEvents r.1)
      else if memory_type.map lowerChar = "eeprom".toList then
        let r := readEepromMemory env.chip.eeprom_page_size
          env.chip.eeprom_total_size env.pageOracle
        match r.2 with
        | Except.error e => Except.error e
        | Except.ok _ => Except.ok ("0".toList, wireOfReadEvents r.1)
      else Except.error "Unknown memory type"
  | HVPPCommand.WRITE_MEMORY =>
    match splitColon parameters with
    | none => Except.error "Invalid WRITE_MEMORY parameters"
    | some (memory_type, _filename) =>
      if memory_type.map lowerChar = "flash".toList then
        let r := writeMemoryFromHex env.chip.flash_total_size
          env.chip.flash_page_size 1 env.hexMemory env.writeReplies
        match r.2 with
        | Except.error e => Except.error (bulkErrMsg e)
        | Except.ok resp => Except.ok (resp, r.1)
      else if memory_type.map lowerChar = "eeprom".toList then
        let r := writeMemoryFromHex env.chip.eeprom_total_size
          env.chip.eeprom_page_size 2 env.hexMemory env.writeReplies
        match r.2 with
        | Except.error e => Except.error (bulkErrMsg e)
        | Except.ok resp => Except.ok (resp, r.1)
      else Except.error "Unknown memory type"
  | HVPPCommand.LOG =>
    (sendCommandModel portOpen "97".toList 0 env.reply).map (fun r => (r.2, r.1))
  | HVPPCommand.END =>
    (sendCommandModel portOpen "99".toList 1 env.reply).map (fun r => (r.2, r.1))
  | HVPPCommand.NONE => Except.ok ([], [])

/-- The commands the dispatch of programmer_communicate handles: every
member of the enumeration except NONE. -/
def handledCommands : List HVPPCommand :=
  [HVPPCommand.OPEN, HVPPCommand.READ_SIGNATURE, HVPPCommand.READ_FUSES,
   HVPPCommand.WRITE_LFUSE, HVPPCommand.WRITE_HFUSE, HVPPCommand.WRITE_EXT_FUSE,
   HVPPCommand.WRITE_LOCK_BYTE, HVPPCommand.CHIP_ERASE,
   HVPPCommand.READ_CALIBRATION_BYTE, HVPPCommand.READ_MEMORY,
   HVPPCommand.WRITE_MEMORY, HVPPCommand.LOG, HVPPCommand.END]

/-- C10: every command outside the handled set (that is, NONE) makes
programmer_communicate return the empty string with no transport traffic,
and NONE is indeed outside the handled set. -/
theorem programmerCommunicate_unhandled (env : CommEnv) (portOpen : Bool)
    (parameters : List Char) :
    (∀ cmd : HVPPCommand, cmd ∉ handledCommands →
      programmerCommunicate env portOpen cmd parameters = Except.ok ([], [])) ∧
    HVPPCommand.NONE ∉ handledCommands := by
  constructor
  · intro cmd hcmd
    cases cmd
    case NONE => rfl
    all_goals exact absurd (by decide) hcmd
  · decide

/-- Concrete instance of programmerCommunicate_unhandled: NONE on a
concrete environment yields the empty response and an empty wire trace. -/
theorem programmerCommunicate_unhandled_witness :
    programmerCommunicate
      ⟨⟨"0328".toList, 64, 32768, 4, 1024⟩, fun _ => [], fun _ => [], [],
        fun _ => ([], [])⟩ true HVPPCommand.NONE [] = Except.ok ([], []) :=
  (programmerCommunicate_unhandled
    ⟨⟨"0328".toList, 64, 32768, 4, 1024⟩, fun _ => [], fun _ => [], [],
      fun _ => ([], [])⟩ true []).1 HVPPCommand.NONE (by decide)

end HVPP
